import Mathlib

/-!
Verification of the ANSI terminal-emulator logic (`src/ansi_logic.cpp`,
`src/ansi_logic.h`) as a shallow embedding.

Bytes are modelled as natural numbers (the C `char` values of the input
buffer, 0..255), the screen buffer as a list of rows, each row a list of
cells.  The C `int` cursor coordinates are modelled as `Nat`: every place
where the C code could produce a negative intermediate value guards it
with `std::max(0, ...)`, which coincides with truncated `Nat` subtraction.
-/

/-- `RgbColor` as used by `AnsiLogic::normal_colors` / `bright_colors` in
ansi_logic.cpp: an RGB triple. -/
structure RgbColor where
  r : Nat
  g : Nat
  b : Nat
deriving DecidableEq

/-- Modelled from the spec: `ansi_logic.cpp` assigns `current_attr.fg` /
`current_attr.bg` from `RgbColor` tables, but the matching header revision is
not among the sources (the in-tree `ansi_logic.h` stores the same data as
eight raw channels with constant alpha 255).  Per the spec an Attribute is a
foreground and a background color defaulting to a light-on-dark pair; the
in-tree headers use white `(255,255,255)` on black `(0,0,0)`. -/
structure CharAttr where
  fg : RgbColor := ⟨255, 255, 255⟩
  bg : RgbColor := ⟨0, 0, 0⟩
deriving DecidableEq

/-- `struct Char` of ansi_logic.h: a Unicode scalar plus an attribute.
(Named `TermChar` because `Char` collides with Lean's builtin type.) -/
structure TermChar where
  ch : Nat := 32
  attr : CharAttr := {}
deriving DecidableEq

/-- `struct Cursor` of ansi_logic.h. -/
structure Cursor where
  row : Nat := 0
  col : Nat := 0
deriving DecidableEq

/-- `enum class AnsiState` of ansi_logic.h. -/
inductive AnsiState where
  | NORMAL
  | ESCAPE
  | CSI
deriving DecidableEq

/-- The mutable state of `class AnsiLogic` (ansi_logic.h): dimensions, the
grid, the cursor, the current drawing attribute, the parser state and the
accumulated escape-sequence bytes. -/
structure AnsiLogic where
  term_cols : Nat
  term_rows : Nat
  text_buffer : List (List TermChar)
  cursor : Cursor
  current_attr : CharAttr
  state : AnsiState
  ansi_seq : List Nat
deriving DecidableEq

/-- A blank cell `{ L' ', attr }`. -/
def blank (attr : CharAttr) : TermChar := ⟨32, attr⟩

/-- `AnsiLogic::AnsiLogic(int cols, int rows)`: the grid starts as
`rows` rows of `cols` blank cells with the default attribute. -/
def AnsiLogic.init (cols rows : Nat) : AnsiLogic :=
  { term_cols := cols
    term_rows := rows
    text_buffer := List.replicate rows (List.replicate cols (blank {}))
    cursor := {}
    current_attr := {}
    state := .NORMAL
    ansi_seq := [] }

/-- `std::vector::resize(n, v)`: truncate to `n` elements, or pad with
copies of `v` up to `n` elements. -/
def listResize {α : Type} (l : List α) (n : Nat) (v : α) : List α :=
  l.take n ++ List.replicate (n - l.length) v

/-- `AnsiLogic::resize(int new_cols, int new_rows)` (ansi_logic.cpp:60):
resize the row list, then every row, filling with blanks carrying the
current attribute, and clamp the cursor with `std::min`. -/
def AnsiLogic.resize (st : AnsiLogic) (new_cols new_rows : Nat) : AnsiLogic :=
  let fill := List.replicate new_cols (blank st.current_attr)
  let buf1 := listResize st.text_buffer new_rows fill
  let buf2 := buf1.map (fun line => listResize line new_cols (blank st.current_attr))
  { st with
    term_cols := new_cols
    term_rows := new_rows
    text_buffer := buf2
    cursor := ⟨min st.cursor.row (new_rows - 1), min st.cursor.col (new_cols - 1)⟩ }

/-- `text_buffer[r][c] = v` (a no-op out of range, where the C++ code would
index out of bounds; all uses are in range under the grid invariant). -/
def setCell (buf : List (List TermChar)) (r c : Nat) (v : TermChar) :
    List (List TermChar) :=
  buf.set r ((buf.getD r []).set c v)

/-- Read `text_buffer[r][c]` (blank default out of range). -/
def cellAt (st : AnsiLogic) (r c : Nat) : TermChar :=
  (st.text_buffer.getD r []).getD c (blank {})

/-- `AnsiLogic::scroll_up()` (ansi_logic.cpp:572): drop row 0, append a
blank row filled with the current attribute, cursor to the last row. -/
def scrollUp (st : AnsiLogic) : AnsiLogic :=
  { st with
    text_buffer :=
      st.text_buffer.drop 1 ++ [List.replicate st.term_cols (blank st.current_attr)]
    cursor := ⟨st.term_rows - 1, st.cursor.col⟩ }

/-- `AnsiLogic::clear_screen()` (ansi_logic.cpp:556): every row
`0..term_rows-1` becomes `term_cols` blanks with the current attribute and
the cursor returns to the origin. -/
def clearScreen (st : AnsiLogic) : AnsiLogic :=
  { st with
    text_buffer :=
      List.replicate st.term_rows (List.replicate st.term_cols (blank st.current_attr))
    cursor := ⟨0, 0⟩ }

/-- `AnsiLogic::reset_state()` (ansi_logic.cpp:565): default attribute,
then clear the screen. -/
def resetState (st : AnsiLogic) : AnsiLogic :=
  clearScreen { st with current_attr := {} }

/-- `std::isdigit` on a byte. -/
def isDigitByte (c : Nat) : Bool := 48 ≤ c && c ≤ 57

/-- `std::isalpha` on a byte ("C" locale): `A`-`Z` or `a`-`z`. -/
def isAlphaByte (c : Nat) : Bool := (65 ≤ c && c ≤ 90) || (97 ≤ c && c ≤ 122)

/-- `std::stoi` applied to a nonempty digit string of value `v`: values
above `INT_MAX` throw `out_of_range`, which `parse_ansi_sequence` catches
and turns into 0. -/
def paramValue (v : Nat) : Nat := if v ≤ 2147483647 then v else 0

/-- The parameter-collection loop of `AnsiLogic::parse_ansi_sequence`
(ansi_logic.cpp:412-444) over the bytes after the leading `[`: digits
accumulate into the current field (`v` with nonempty flag `ne`), `;` and the
final letter push the field (0 when empty), the letter stops the loop (the
current field was cleared before the break, so the post-loop push does
nothing), every other byte is skipped. -/
def collectParams : List Nat → Nat → Bool → List Nat → List Nat
  | [], v, ne, ps => if ne then ps ++ [paramValue v] else ps
  | c :: rest, v, ne, ps =>
    if isDigitByte c then collectParams rest (v * 10 + (c - 48)) true ps
    else if c = 59 then collectParams rest 0 false (ps ++ [if ne then paramValue v else 0])
    else if isAlphaByte c then ps ++ [if ne then paramValue v else 0]
    else collectParams rest v ne ps

/-- `get_param(params, index, default_value)` (ansi_logic.cpp:392): the
parameter if present and strictly greater than the default, else the
default. -/
def getParam (params : List Nat) (i d : Nat) : Nat :=
  match params[i]? with
  | some v => if d < v then v else d
  | none => d

/-- `AnsiLogic::normal_colors` (ansi_logic.cpp:32). -/
def normalColors (i : Nat) : RgbColor :=
  [(⟨0, 0, 0⟩ : RgbColor), ⟨192, 0, 0⟩, ⟨0, 192, 0⟩, ⟨192, 85, 0⟩,
    ⟨0, 0, 192⟩, ⟨192, 0, 192⟩, ⟨0, 192, 192⟩, ⟨192, 192, 192⟩].getD i ⟨0, 0, 0⟩

/-- `AnsiLogic::bright_colors` (ansi_logic.cpp:43). -/
def brightColors (i : Nat) : RgbColor :=
  [(⟨85, 85, 85⟩ : RgbColor), ⟨255, 0, 0⟩, ⟨0, 255, 0⟩, ⟨255, 255, 0⟩,
    ⟨0, 0, 255⟩, ⟨255, 0, 255⟩, ⟨0, 255, 255⟩, ⟨255, 255, 255⟩].getD i ⟨0, 0, 0⟩

/-- One iteration of the SGR parameter loop (ansi_logic.cpp:450-467).  The
`Bool` component models the `current_colors` pointer (`false` =
`normal_colors`, `true` = `bright_colors`). -/
def sgrStep : Bool × CharAttr → Nat → Bool × CharAttr := fun ba p =>
  if p = 0 then (false, {})
  else if p = 1 then (true, { ba.2 with fg := brightColors 7 })
  else if 30 ≤ p ∧ p ≤ 37 then
    (ba.1, { ba.2 with fg := if ba.1 then brightColors (p - 30) else normalColors (p - 30) })
  else if 40 ≤ p ∧ p ≤ 47 then
    (ba.1, { ba.2 with bg := if ba.1 then brightColors (p - 40) else normalColors (p - 40) })
  else if 90 ≤ p ∧ p ≤ 97 then (ba.1, { ba.2 with fg := brightColors (p - 90) })
  else if 100 ≤ p ∧ p ≤ 107 then (ba.1, { ba.2 with bg := brightColors (p - 100) })
  else ba

/-- The attribute produced by a full SGR dispatch: fold the parameters left
to right starting from the `normal_colors` table and the current
attribute. -/
def sgrApply (params : List Nat) (attr : CharAttr) : CharAttr :=
  (params.foldl sgrStep (false, attr)).2

/-- Map `f i a` over a list, `i` being the position counted from `start`. -/
def mapIdxFrom {α : Type} (f : Nat → α → α) : Nat → List α → List α
  | _, [] => []
  | i, a :: t => f i a :: mapIdxFrom f (i + 1) t

/-- The row-segment fill loops: blank (with attribute `attr`) every cell
whose column index lies in `[a, b)`. -/
def fillSeg (attr : CharAttr) (a b : Nat) (row : List TermChar) : List TermChar :=
  mapIdxFrom (fun j cell => if a ≤ j ∧ j < b then blank attr else cell) 0 row

/-- `J` mode 0 (ansi_logic.cpp:494-506): blank the cursor row from the
cursor column to the last column, and every full row strictly below the
cursor row (up to `term_rows`). -/
def eraseDisplayFromCursor (st : AnsiLogic) : List (List TermChar) :=
  mapIdxFrom
    (fun r row =>
      if r = st.cursor.row then fillSeg st.current_attr st.cursor.col st.term_cols row
      else if st.cursor.row < r ∧ r < st.term_rows then
        fillSeg st.current_attr 0 st.term_cols row
      else row)
    0 st.text_buffer

/-- `J` mode 1 (ansi_logic.cpp:508-520): blank every full row strictly
above the cursor row, and the cursor row up to and including the cursor
column. -/
def eraseDisplayToCursor (st : AnsiLogic) : List (List TermChar) :=
  mapIdxFrom
    (fun r row =>
      if r < st.cursor.row then fillSeg st.current_attr 0 st.term_cols row
      else if r = st.cursor.row then fillSeg st.current_attr 0 (st.cursor.col + 1) row
      else row)
    0 st.text_buffer

/-- Blank a column segment of the cursor row only (the `K` cases,
ansi_logic.cpp:531-552). -/
def setRowSeg (st : AnsiLogic) (a b : Nat) : List (List TermChar) :=
  mapIdxFrom
    (fun r row => if r = st.cursor.row then fillSeg st.current_attr a b row else row)
    0 st.text_buffer

/-- Dispatch on the final byte of a CSI sequence
(ansi_logic.cpp:447-553), given the parsed parameters.  Returns the new
state and the rows pushed on `dirty_rows`. -/
def csiFinal (fin : Nat) (params : List Nat) (st : AnsiLogic) :
    AnsiLogic × List Nat :=
  if fin = 109 then -- 'm'
    ({ st with current_attr := sgrApply params st.current_attr }, [])
  else if fin = 72 then -- 'H'
    ({ st with cursor :=
        ⟨min (getParam params 0 1 - 1) (st.term_rows - 1),
          min (getParam params 1 1 - 1) (st.term_cols - 1)⟩ }, [])
  else if fin = 65 then -- 'A'
    ({ st with cursor := ⟨st.cursor.row - getParam params 0 1, st.cursor.col⟩ }, [])
  else if fin = 66 then -- 'B'
    ({ st with cursor :=
        ⟨min (st.term_rows - 1) (st.cursor.row + getParam params 0 1), st.cursor.col⟩ }, [])
  else if fin = 67 then -- 'C'
    ({ st with cursor :=
        ⟨st.cursor.row, min (st.term_cols - 1) (st.cursor.col + getParam params 0 1)⟩ }, [])
  else if fin = 68 then -- 'D'
    ({ st with cursor := ⟨st.cursor.row, st.cursor.col - getParam params 0 1⟩ }, [])
  else if fin = 74 then -- 'J'
    let mode := getParam params 0 0
    if mode = 1 then
      ({ st with text_buffer := eraseDisplayToCursor st }, List.range (st.cursor.row + 1))
    else if mode = 2 then
      (clearScreen st, List.range st.term_rows)
    else -- `default:` falls through to `case 0:` in the C++ switch
      ({ st with text_buffer := eraseDisplayFromCursor st },
        List.range' st.cursor.row (st.term_rows - st.cursor.row))
  else if fin = 75 then -- 'K'
    let mode := getParam params 0 0
    let buf :=
      if mode = 1 then setRowSeg st 0 (st.cursor.col + 1)
      else if mode = 2 then setRowSeg st 0 st.term_cols
      else setRowSeg st st.cursor.col st.term_cols
    ({ st with text_buffer := buf }, [st.cursor.row])
  else (st, [])

/-- `AnsiLogic::parse_ansi_sequence` (ansi_logic.cpp:400): a no-op unless
the sequence starts with `[`; otherwise parse the parameters and dispatch
on the last byte. -/
def parseAnsiSequence (seq : List Nat) (st : AnsiLogic) : AnsiLogic × List Nat :=
  match seq with
  | 91 :: body => csiFinal (seq.getLastD 0) (collectParams body 0 false []) st
  | _ => (st, [])

/-- Write a decoded scalar at the cursor (ansi_logic.cpp:161-175): if the
cursor is inside the grid, store the cell with the current attribute,
advance the column and mark the row dirty; then, if the column ran past the
last column, wrap to column 0 of the next row, scrolling (and marking every
row dirty) when the row overflows.  Returns the new state and the dirty
rows pushed. -/
def putChar (st : AnsiLogic) (ch : Nat) : AnsiLogic × List Nat :=
  let wr :=
    if st.cursor.col < st.term_cols ∧ st.cursor.row < st.term_rows then
      ({ st with
          text_buffer := setCell st.text_buffer st.cursor.row st.cursor.col ⟨ch, st.current_attr⟩
          cursor := ⟨st.cursor.row, st.cursor.col + 1⟩ },
        [st.cursor.row])
    else (st, [])
  let st1 := wr.1
  if st1.term_cols ≤ st1.cursor.col then
    let st2 := { st1 with cursor := ⟨st1.cursor.row + 1, 0⟩ }
    if st2.term_rows ≤ st2.cursor.row then
      (scrollUp st2, wr.2 ++ List.range st1.term_rows)
    else (st2, wr.2)
  else (st1, wr.2)

/-- The `\n` handler (ansi_logic.cpp:87-99), also reached by `\r\n`
(ansi_logic.cpp:102-112): advance the row, column 0, scroll (all rows
dirty) when the row overflows, else mark the new row dirty. -/
def nlStep (st : AnsiLogic) : AnsiLogic × List Nat :=
  let st1 := { st with cursor := ⟨st.cursor.row + 1, 0⟩ }
  if st.term_rows ≤ st1.cursor.row then
    (scrollUp st1, List.range st.term_rows)
  else (st1, [st1.cursor.row])

/-- One iteration of the `process_input` loop (ansi_logic.cpp:76-216) on
the byte `c` with the not-yet-consumed bytes `rest` after it: returns the
new state, the dirty rows pushed, and how many bytes of `rest` this
iteration consumed in addition to `c` (the loop consumes between one and
four bytes in total). -/
def step (st : AnsiLogic) (c : Nat) (rest : List Nat) :
    (AnsiLogic × List Nat) × Nat :=
  match st.state with
  | .NORMAL =>
    if c = 27 then (({ st with state := .ESCAPE, ansi_seq := [] }, []), 0)
    else if c = 10 then (nlStep st, 0)
    else if c = 13 then
      match rest with
      | 10 :: _ => (nlStep st, 1) -- CRLF consumed as one line break
      | _ => (({ st with cursor := ⟨st.cursor.row, 0⟩ }, [st.cursor.row]), 0)
    else if c = 8 then
      if 0 < st.cursor.col then
        (({ st with
            cursor := ⟨st.cursor.row, st.cursor.col - 1⟩
            text_buffer :=
              setCell st.text_buffer st.cursor.row (st.cursor.col - 1) (blank st.current_attr) },
          [st.cursor.row]), 0)
      else ((st, []), 0)
    else if c = 9 then
      let c2 := (st.cursor.col + 8) / 8 * 8
      (({ st with
          cursor := ⟨st.cursor.row, if st.term_cols ≤ c2 then st.term_cols - 1 else c2⟩ },
        []), 0)
    else if c = 7 then ((st, []), 0)
    else if c &&& 0x80 = 0 then (putChar st c, 0)
    else if c &&& 0xE0 = 0xC0 then
      match rest with
      | c1 :: _ => (putChar st (((c &&& 0x1F) <<< 6) ||| (c1 &&& 0x3F)), 1)
      | [] => ((st, []), 0) -- truncated: skip the lead byte only
    else if c &&& 0xF0 = 0xE0 then
      match rest with
      | c1 :: c2 :: _ =>
        (putChar st (((c &&& 0x0F) <<< 12) ||| ((c1 &&& 0x3F) <<< 6) ||| (c2 &&& 0x3F)), 2)
      | _ => ((st, []), 0)
    else if c &&& 0xF8 = 0xF0 then
      match rest with
      | c1 :: c2 :: c3 :: _ =>
        (putChar st
          (((c &&& 0x07) <<< 18) ||| ((c1 &&& 0x3F) <<< 12) |||
            ((c2 &&& 0x3F) <<< 6) ||| (c3 &&& 0x3F)), 3)
      | _ => ((st, []), 0)
    else ((st, []), 0) -- no UTF-8 prefix matches: skip one byte
  | .ESCAPE =>
    if c = 91 then (({ st with state := .CSI, ansi_seq := [91] }, []), 0)
    else if c = 99 then
      (({ resetState st with state := .NORMAL, ansi_seq := [] },
        List.range st.term_rows), 0)
    else (({ st with state := .NORMAL, ansi_seq := [] }, []), 0)
  | .CSI =>
    let seq2 := st.ansi_seq ++ [c]
    if isAlphaByte c then
      let pr := parseAnsiSequence seq2 { st with ansi_seq := seq2 }
      (({ pr.1 with state := .NORMAL, ansi_seq := [] }, pr.2), 0)
    else (({ st with ansi_seq := seq2 }, []), 0)

/-- The `process_input` loop (ansi_logic.cpp:72-217) before the final
sort/deduplication, with explicit fuel (the loop consumes at least one
byte per iteration, so `length` fuel always suffices): iterate `step`,
dropping the extra bytes each iteration consumed and concatenating the
pushed dirty rows. -/
def processBytesFuel : Nat → AnsiLogic → List Nat → AnsiLogic × List Nat
  | _, st, [] => (st, [])
  | 0, st, _ :: _ => (st, [])
  | fuel + 1, st, c :: rest =>
    let s := step st c rest
    let r := processBytesFuel fuel s.1.1 (rest.drop s.2)
    (r.1, s.1.2 ++ r.2)

/-- The `process_input` loop (ansi_logic.cpp:72-217) before the final
sort/deduplication. -/
def processBytes (st : AnsiLogic) (l : List Nat) : AnsiLogic × List Nat :=
  processBytesFuel l.length st l

theorem processBytesFuel_nil (f : Nat) (st : AnsiLogic) :
    processBytesFuel f st [] = (st, []) := by
  cases f <;> rfl

/-- The fuel is irrelevant as soon as it covers the input length. -/
theorem processBytesFuel_congr :
    ∀ (f f' : Nat) (st : AnsiLogic) (l : List Nat), l.length ≤ f → l.length ≤ f' →
      processBytesFuel f st l = processBytesFuel f' st l
  | f, f', _, [], _, _ => by
    rw [processBytesFuel_nil, processBytesFuel_nil]
  | f + 1, f' + 1, st, c :: rest, hf, hf' => by
    simp only [processBytesFuel]
    have hk : (rest.drop (step st c rest).2).length ≤ f := by
      rw [List.length_drop]
      simp only [List.length_cons] at hf
      omega
    have hk' : (rest.drop (step st c rest).2).length ≤ f' := by
      rw [List.length_drop]
      simp only [List.length_cons] at hf'
      omega
    rw [processBytesFuel_congr f f' (step st c rest).1.1 (rest.drop (step st c rest).2) hk hk']

/-- `std::sort` on the dirty-row vector, modelled as insertion sort. -/
def insertSorted (x : Nat) : List Nat → List Nat
  | [] => [x]
  | y :: t => if x ≤ y then x :: y :: t else y :: insertSorted x t

/-- Ascending sort (the observable effect of `std::sort` with `<`). -/
def sortNat (l : List Nat) : List Nat := l.foldr insertSorted []

/-- `std::unique` + `erase` on a vector: drop the later element of every
pair of equal neighbours. -/
def dedupConsec : List Nat → List Nat
  | [] => []
  | [a] => [a]
  | a :: b :: t => if a = b then dedupConsec (b :: t) else a :: dedupConsec (b :: t)

/-- `AnsiLogic::process_input(buffer, length)` (ansi_logic.cpp:72):
process the bytes, then sort the dirty rows and remove duplicates. -/
def processInput (st : AnsiLogic) (input : List Nat) : AnsiLogic × List Nat :=
  let r := processBytes st input
  (r.1, dedupConsec (sortNat r.2))

/-- `enum class KeyCode` of ansi_logic.h. -/
inductive KeyCode where
  | UNKNOWN | ENTER | BACKSPACE | TAB | ESCAPE
  | UP | DOWN | RIGHT | LEFT
  | HOME | END | INSERT | DELETE | PAGEUP | PAGEDOWN
  | F1 | F2 | F3 | F4 | F5 | F6 | F7 | F8 | F9 | F10 | F11 | F12
  | CAPSLOCK
  | LEFT_SHIFT | RIGHT_SHIFT | LEFT_CTRL | RIGHT_CTRL
  | LEFT_OPTION | RIGHT_OPTION | LEFT_COMMAND | RIGHT_COMMAND
  | CHARACTER
deriving DecidableEq

/-- `struct KeyInput` of ansi_logic.h: key code, Unicode codepoint, and
modifier flags. -/
structure KeyInput where
  code : KeyCode := .UNKNOWN
  character : Nat := 0
  mod_shift : Bool := false
  mod_ctrl : Bool := false

/-- `wchar_to_utf8` (ansi_logic.cpp:224): standard UTF-8 encoding of a
codepoint into bytes. -/
def wcharToUtf8 (wc : Nat) : List Nat :=
  if wc ≤ 0x7F then [wc]
  else if wc ≤ 0x7FF then
    [0xC0 ||| ((wc >>> 6) &&& 0x1F), 0x80 ||| (wc &&& 0x3F)]
  else if wc ≤ 0xFFFF then
    [0xE0 ||| ((wc >>> 12) &&& 0x0F), 0x80 ||| ((wc >>> 6) &&& 0x3F), 0x80 ||| (wc &&& 0x3F)]
  else
    [0xF0 ||| ((wc >>> 18) &&& 0x07), 0x80 ||| ((wc >>> 12) &&& 0x3F),
      0x80 ||| ((wc >>> 6) &&& 0x3F), 0x80 ||| (wc &&& 0x3F)]

/-- The `shift_map` table of `AnsiLogic::process_key`
(ansi_logic.cpp:360-365); keys not in the table are left unchanged. -/
def shiftMap (c : Nat) : Nat :=
  match c with
  | 49 => 33 | 50 => 64 | 51 => 35 | 52 => 36 | 53 => 37
  | 54 => 94 | 55 => 38 | 56 => 42 | 57 => 40 | 48 => 41
  | 45 => 95 | 61 => 43 | 91 => 123 | 93 => 125 | 59 => 58
  | 39 => 34 | 44 => 60 | 46 => 62 | 47 => 63 | 96 => 126
  | _ => c

/-- `AnsiLogic::process_key` (ansi_logic.cpp:245), returning the byte
sequence to send.  `uToupper` stands for the external ICU `u_toupper`
function (only reached for shifted non-ASCII codepoints). -/
def processKey (uToupper : Nat → Nat) (key : KeyInput) : List Nat :=
  match key.code with
  | .UNKNOWN | .CAPSLOCK
  | .LEFT_SHIFT | .RIGHT_SHIFT | .LEFT_CTRL | .RIGHT_CTRL
  | .LEFT_OPTION | .RIGHT_OPTION | .LEFT_COMMAND | .RIGHT_COMMAND => []
  | .ENTER => [13]
  | .BACKSPACE => [8]
  | .TAB => [9]
  | .ESCAPE => [27]
  | .UP => [27, 91, 65]
  | .DOWN => [27, 91, 66]
  | .RIGHT => [27, 91, 67]
  | .LEFT => [27, 91, 68]
  | .HOME => [27, 91, 72]
  | .END => [27, 91, 70]
  | .INSERT => [27, 91, 50, 126]
  | .DELETE => [27, 91, 51, 126]
  | .PAGEUP => [27, 91, 53, 126]
  | .PAGEDOWN => [27, 91, 54, 126]
  | .F1 => [27, 79, 80]
  | .F2 => [27, 79, 81]
  | .F3 => [27, 79, 82]
  | .F4 => [27, 79, 83]
  | .F5 => [27, 91, 49, 53, 126]
  | .F6 => [27, 91, 49, 55, 126]
  | .F7 => [27, 91, 49, 56, 126]
  | .F8 => [27, 91, 49, 57, 126]
  | .F9 => [27, 91, 50, 48, 126]
  | .F10 => [27, 91, 50, 49, 126]
  | .F11 => [27, 91, 50, 51, 126]
  | .F12 => [27, 91, 50, 52, 126]
  | .CHARACTER =>
    if key.mod_ctrl then [key.character &&& 0x1F]
    else if key.mod_shift then
      if key.character ≤ 0x7F then
        if 97 ≤ key.character ∧ key.character ≤ 122 then [key.character - 32]
        else [shiftMap key.character]
      else wcharToUtf8 (uToupper key.character)
    else if key.character ≤ 0x7F then [key.character]
    else wcharToUtf8 key.character

/-- An operation of the public mutating interface: one `process_input`
call or one `resize` call. -/
inductive TermOp where
  | inp (bytes : List Nat)
  | resz (cols rows : Nat)

/-- Apply one operation to the state. -/
def applyOp (st : AnsiLogic) : TermOp → AnsiLogic
  | .inp bytes => (processInput st bytes).1
  | .resz cols rows => st.resize cols rows

/-- Resize arguments are at least 1. -/
def opOk : TermOp → Prop
  | .inp _ => True
  | .resz cols rows => 1 ≤ cols ∧ 1 ≤ rows

instance : DecidablePred opOk := fun op => by
  cases op <;> simp [opOk] <;> infer_instance

/-- The grid/cursor well-formedness invariant: positive dimensions, exactly
`term_rows` rows of exactly `term_cols` cells, cursor inside the grid. -/
def WF (st : AnsiLogic) : Prop :=
  1 ≤ st.term_cols ∧ 1 ≤ st.term_rows ∧
  st.text_buffer.length = st.term_rows ∧
  (∀ row ∈ st.text_buffer, row.length = st.term_cols) ∧
  st.cursor.row < st.term_rows ∧ st.cursor.col < st.term_cols

instance (st : AnsiLogic) : Decidable (WF st) := by
  unfold WF; infer_instance

/-- The one boundary shape under which resuming a split stream diverges
from the single call: the last three bytes of a prefix being a 4-byte
UTF-8 lead (`b & 0xF8 == 0xF0`) immediately followed by `ESC` `[`.  The
split call skips the truncated lead and enters a CSI sequence, while the
single call consumes `ESC` `[` as continuation bytes of the lead. -/
def badTail : List Nat → Bool
  | [] => false
  | [_] => false
  | [_, _] => false
  | b :: c :: d :: t =>
    if t = [] then (b &&& 0xF8 == 0xF0) && c == 27 && d == 91
    else badTail (c :: d :: t)

/-! ### List helper lemmas -/

theorem length_mapIdxFrom {α : Type} (f : Nat → α → α) (i : Nat) (l : List α) :
    (mapIdxFrom f i l).length = l.length := by
  induction l generalizing i with
  | nil => rfl
  | cons a t ih => simp [mapIdxFrom, ih]

theorem getElem?_mapIdxFrom {α : Type} (f : Nat → α → α) (i : Nat) (l : List α) (j : Nat) :
    (mapIdxFrom f i l)[j]? = (l[j]?).map (f (i + j)) := by
  induction l generalizing i j with
  | nil => simp [mapIdxFrom]
  | cons a t ih =>
    cases j with
    | zero => simp [mapIdxFrom]
    | succ j =>
      simp only [mapIdxFrom, List.getElem?_cons_succ, ih (i + 1) j]
      rw [Nat.add_assoc, Nat.add_comm 1 j]

theorem length_fillSeg (attr : CharAttr) (a b : Nat) (row : List TermChar) :
    (fillSeg attr a b row).length = row.length :=
  length_mapIdxFrom _ _ _

theorem getElem?_fillSeg (attr : CharAttr) (a b : Nat) (row : List TermChar) (j : Nat) :
    (fillSeg attr a b row)[j]? =
      (row[j]?).map (fun cell => if a ≤ j ∧ j < b then blank attr else cell) := by
  simpa using getElem?_mapIdxFrom _ 0 row j

theorem length_listResize {α : Type} (l : List α) (n : Nat) (v : α) :
    (listResize l n v).length = n := by
  unfold listResize
  rw [List.length_append, List.length_take, List.length_replicate]
  omega

theorem mem_insertSorted (x : Nat) (l : List Nat) (y : Nat) :
    y ∈ insertSorted x l ↔ y = x ∨ y ∈ l := by
  induction l with
  | nil => simp [insertSorted]
  | cons z t ih =>
    by_cases hxz : x ≤ z
    · simp [insertSorted, if_pos hxz]
    · simp [insertSorted, if_neg hxz, ih]
      tauto

theorem sorted_insertSorted (x : Nat) (l : List Nat) (h : l.Sorted (· ≤ ·)) :
    (insertSorted x l).Sorted (· ≤ ·) := by
  induction l with
  | nil => simp [insertSorted]
  | cons y t ih =>
    rw [List.sorted_cons] at h
    by_cases hxy : x ≤ y
    · simp only [insertSorted, if_pos hxy, List.sorted_cons]
      constructor
      · intro b hb
        rcases List.mem_cons.1 hb with rfl | hb
        · exact hxy
        · exact le_trans hxy (h.1 b hb)
      · exact h
    · simp only [insertSorted, if_neg hxy, List.sorted_cons]
      refine ⟨fun b hb => ?_, ih h.2⟩
      rcases (mem_insertSorted x t b).1 hb with rfl | hb
      · omega
      · exact h.1 b hb

theorem sorted_sortNat (l : List Nat) : (sortNat l).Sorted (· ≤ ·) := by
  induction l with
  | nil => simp [sortNat]
  | cons a t ih => exact sorted_insertSorted a (sortNat t) ih

theorem mem_sortNat (l : List Nat) (x : Nat) : x ∈ sortNat l ↔ x ∈ l := by
  induction l with
  | nil => simp [sortNat]
  | cons a t ih =>
    simp only [sortNat, List.foldr_cons] at *
    rw [mem_insertSorted, ih, List.mem_cons]

theorem insertSorted_eq_cons (x : Nat) (l : List Nat) (h : ∀ y ∈ l, x ≤ y) :
    insertSorted x l = x :: l := by
  cases l with
  | nil => rfl
  | cons y t => simp [insertSorted, h y (by simp)]

theorem sortNat_eq_self (l : List Nat) (h : l.Sorted (· ≤ ·)) : sortNat l = l := by
  induction l with
  | nil => rfl
  | cons a t ih =>
    rw [List.sorted_cons] at h
    simp only [sortNat, List.foldr_cons]
    have ht : sortNat t = t := ih h.2
    simp only [sortNat] at ht
    rw [ht, insertSorted_eq_cons a t h.1]

theorem dedupConsec_cons_eq (a : Nat) (t : List Nat) :
    dedupConsec (a :: a :: t) = dedupConsec (a :: t) := by
  simp [dedupConsec]

theorem dedupConsec_cons_ne (a b : Nat) (t : List Nat) (hab : a ≠ b) :
    dedupConsec (a :: b :: t) = a :: dedupConsec (b :: t) := by
  simp [dedupConsec, hab]

theorem mem_dedupConsec : (l : List Nat) → (x : Nat) → (x ∈ dedupConsec l ↔ x ∈ l)
  | [], x => by simp [dedupConsec]
  | [a], x => by simp [dedupConsec]
  | a :: b :: t, x => by
    have ih := mem_dedupConsec (b :: t) x
    by_cases hab : a = b
    · subst hab
      rw [dedupConsec_cons_eq, ih]
      simp only [List.mem_cons]
      tauto
    · rw [dedupConsec_cons_ne a b t hab]
      simp only [List.mem_cons, ih]

theorem dedupConsec_sorted_lt : (l : List Nat) → l.Sorted (· ≤ ·) →
    (dedupConsec l).Sorted (· < ·)
  | [], _ => by simp [dedupConsec]
  | [a], _ => by simp [dedupConsec]
  | a :: b :: t, h => by
    rw [List.sorted_cons] at h
    have ih := dedupConsec_sorted_lt (b :: t) h.2
    by_cases hab : a = b
    · subst hab
      simpa only [dedupConsec_cons_eq] using ih
    · rw [dedupConsec_cons_ne a b t hab]
      simp only [List.sorted_cons]
      refine ⟨fun c hc => ?_, ih⟩
      have hc' := (mem_dedupConsec (b :: t) c).1 hc
      have hab' : a < b := lt_of_le_of_ne (h.1 b (by simp)) hab
      rcases List.mem_cons.1 hc' with rfl | hc'
      · exact hab'
      · exact lt_of_lt_of_le hab' ((List.sorted_cons.1 h.2).1 c hc')

theorem dedupConsec_eq_self : (l : List Nat) → l.Sorted (· < ·) → dedupConsec l = l
  | [], _ => rfl
  | [a], _ => rfl
  | a :: b :: t, h => by
    rw [List.sorted_cons] at h
    have hab : a ≠ b := by
      have := h.1 b (by simp)
      omega
    rw [dedupConsec_cons_ne a b t hab, dedupConsec_eq_self (b :: t) h.2]

/-! ### Unfolding lemmas for the byte-processing loop -/

theorem processBytes_nil (st : AnsiLogic) : processBytes st [] = (st, []) := rfl

theorem processBytes_cons (st : AnsiLogic) (c : Nat) (rest : List Nat) :
    processBytes st (c :: rest) =
      ((processBytes (step st c rest).1.1 (rest.drop (step st c rest).2)).1,
        (step st c rest).1.2 ++
          (processBytes (step st c rest).1.1 (rest.drop (step st c rest).2)).2) := by
  show processBytesFuel (rest.length + 1) st (c :: rest) = _
  simp only [processBytesFuel]
  rw [processBytesFuel_congr rest.length (rest.drop (step st c rest).2).length
    (step st c rest).1.1 (rest.drop (step st c rest).2)
    (by rw [List.length_drop]; omega) le_rfl]
  rfl

theorem and_submask (c m1 m2 v : Nat) (h : c &&& m1 = v) (hsub : m1 &&& m2 = m2) :
    c &&& m2 = v &&& m2 := by
  conv_lhs => rw [← hsub, ← Nat.and_assoc, h]

theorem mask2_ne_ctrl (c : Nat) (h : c &&& 0xE0 = 0xC0) :
    c ≠ 27 ∧ c ≠ 10 ∧ c ≠ 13 ∧ c ≠ 8 ∧ c ≠ 9 ∧ c ≠ 7 ∧ ¬c &&& 0x80 = 0 := by
  have h80 : c &&& 0x80 = 0x80 := by
    have := and_submask c 0xE0 0x80 0xC0 h (by decide)
    simpa using this
  refine ⟨?_, ?_, ?_, ?_, ?_, ?_, by simp [h80]⟩ <;> rintro rfl <;> exact absurd h (by decide)

theorem mask3_ne_ctrl (c : Nat) (h : c &&& 0xF0 = 0xE0) :
    c ≠ 27 ∧ c ≠ 10 ∧ c ≠ 13 ∧ c ≠ 8 ∧ c ≠ 9 ∧ c ≠ 7 ∧
      ¬c &&& 0x80 = 0 ∧ ¬c &&& 0xE0 = 0xC0 := by
  have h80 : c &&& 0x80 = 0x80 := by
    have := and_submask c 0xF0 0x80 0xE0 h (by decide)
    simpa using this
  have hE0 : c &&& 0xE0 = 0xE0 := by
    have := and_submask c 0xF0 0xE0 0xE0 h (by decide)
    simpa using this
  refine ⟨?_, ?_, ?_, ?_, ?_, ?_, by simp [h80], by simp [hE0]⟩ <;> rintro rfl <;>
    exact absurd h (by decide)

theorem mask4_ne_ctrl (c : Nat) (h : c &&& 0xF8 = 0xF0) :
    c ≠ 27 ∧ c ≠ 10 ∧ c ≠ 13 ∧ c ≠ 8 ∧ c ≠ 9 ∧ c ≠ 7 ∧
      ¬c &&& 0x80 = 0 ∧ ¬c &&& 0xE0 = 0xC0 ∧ ¬c &&& 0xF0 = 0xE0 := by
  have h80 : c &&& 0x80 = 0x80 := by
    have := and_submask c 0xF8 0x80 0xF0 h (by decide)
    simpa using this
  have hE0 : c &&& 0xE0 = 0xE0 := by
    have := and_submask c 0xF8 0xE0 0xF0 h (by decide)
    simpa using this
  have hF0 : c &&& 0xF0 = 0xF0 := by
    have := and_submask c 0xF8 0xF0 0xF0 h (by decide)
    simpa using this
  refine ⟨?_, ?_, ?_, ?_, ?_, ?_, by simp [h80], by simp [hE0], by simp [hF0]⟩ <;>
    rintro rfl <;> exact absurd h (by decide)

theorem step_norm_esc (st : AnsiLogic) (h : st.state = .NORMAL) (rest : List Nat) :
    step st 27 rest = (({ st with state := .ESCAPE, ansi_seq := [] }, []), 0) := by
  simp [step, h]

theorem step_norm_nl (st : AnsiLogic) (h : st.state = .NORMAL) (rest : List Nat) :
    step st 10 rest = (nlStep st, 0) := by
  simp [step, h]

theorem step_norm_crnl (st : AnsiLogic) (h : st.state = .NORMAL) (rest : List Nat) :
    step st 13 (10 :: rest) = (nlStep st, 1) := by
  simp [step, h]

theorem step_norm_cr (st : AnsiLogic) (h : st.state = .NORMAL) (rest : List Nat)
    (hr : rest.head? ≠ some 10) :
    step st 13 rest = (({ st with cursor := ⟨st.cursor.row, 0⟩ }, [st.cursor.row]), 0) := by
  cases rest with
  | nil => simp [step, h]
  | cons d r =>
    simp only [List.head?_cons, ne_eq, Option.some.injEq] at hr
    simp only [step, h]
    norm_num
    split
    · simp_all
    · rfl

theorem step_norm_bs (st : AnsiLogic) (h : st.state = .NORMAL) (rest : List Nat) :
    step st 8 rest =
      (if 0 < st.cursor.col then
        ({ st with
            cursor := ⟨st.cursor.row, st.cursor.col - 1⟩
            text_buffer :=
              setCell st.text_buffer st.cursor.row (st.cursor.col - 1) (blank st.current_attr) },
          [st.cursor.row])
      else (st, []), 0) := by
  simp only [step, h]
  norm_num
  split <;> rfl

theorem step_norm_tab (st : AnsiLogic) (h : st.state = .NORMAL) (rest : List Nat) :
    step st 9 rest =
      (({ st with
          cursor :=
            ⟨st.cursor.row,
              if st.term_cols ≤ (st.cursor.col + 8) / 8 * 8 then st.term_cols - 1
              else (st.cursor.col + 8) / 8 * 8⟩ }, []), 0) := by
  simp only [step, h]
  norm_num

theorem step_norm_bell (st : AnsiLogic) (h : st.state = .NORMAL) (rest : List Nat) :
    step st 7 rest = ((st, []), 0) := by
  simp [step, h]

theorem step_norm_ascii (st : AnsiLogic) (h : st.state = .NORMAL) (rest : List Nat)
    (c : Nat) (hmask : c &&& 0x80 = 0)
    (h27 : c ≠ 27) (h10 : c ≠ 10) (h13 : c ≠ 13) (h8 : c ≠ 8) (h9 : c ≠ 9) (h7 : c ≠ 7) :
    step st c rest = (putChar st c, 0) := by
  simp [step, h, h27, h10, h13, h8, h9, h7, hmask]

theorem step_norm_two (st : AnsiLogic) (h : st.state = .NORMAL)
    (c c1 : Nat) (rest : List Nat) (hmask : c &&& 0xE0 = 0xC0) :
    step st c (c1 :: rest) = (putChar st (((c &&& 0x1F) <<< 6) ||| (c1 &&& 0x3F)), 1) := by
  obtain ⟨h27, h10, h13, h8, h9, h7, h80⟩ := mask2_ne_ctrl c hmask
  simp [step, h, h27, h10, h13, h8, h9, h7, h80, hmask]

theorem step_norm_two_trunc (st : AnsiLogic) (h : st.state = .NORMAL)
    (c : Nat) (hmask : c &&& 0xE0 = 0xC0) :
    step st c [] = ((st, []), 0) := by
  obtain ⟨h27, h10, h13, h8, h9, h7, h80⟩ := mask2_ne_ctrl c hmask
  simp [step, h, h27, h10, h13, h8, h9, h7, h80, hmask]

theorem step_norm_three (st : AnsiLogic) (h : st.state = .NORMAL)
    (c c1 c2 : Nat) (rest : List Nat) (hmask : c &&& 0xF0 = 0xE0) :
    step st c (c1 :: c2 :: rest) =
      (putChar st (((c &&& 0x0F) <<< 12) ||| ((c1 &&& 0x3F) <<< 6) ||| (c2 &&& 0x3F)), 2) := by
  obtain ⟨h27, h10, h13, h8, h9, h7, h80, hC0⟩ := mask3_ne_ctrl c hmask
  simp [step, h, h27, h10, h13, h8, h9, h7, h80, hC0, hmask]

theorem step_norm_three_trunc (st : AnsiLogic) (h : st.state = .NORMAL)
    (c : Nat) (rest : List Nat) (hmask : c &&& 0xF0 = 0xE0) (hlen : rest.length ≤ 1) :
    step st c rest = ((st, []), 0) := by
  obtain ⟨h27, h10, h13, h8, h9, h7, h80, hC0⟩ := mask3_ne_ctrl c hmask
  match rest with
  | [] => simp [step, h, h27, h10, h13, h8, h9, h7, h80, hC0, hmask]
  | [c1] => simp [step, h, h27, h10, h13, h8, h9, h7, h80, hC0, hmask]
  | c1 :: c2 :: r => simp at hlen

theorem step_norm_four (st : AnsiLogic) (h : st.state = .NORMAL)
    (c c1 c2 c3 : Nat) (rest : List Nat) (hmask : c &&& 0xF8 = 0xF0) :
    step st c (c1 :: c2 :: c3 :: rest) =
      (putChar st
        (((c &&& 0x07) <<< 18) ||| ((c1 &&& 0x3F) <<< 12) |||
          ((c2 &&& 0x3F) <<< 6) ||| (c3 &&& 0x3F)), 3) := by
  obtain ⟨h27, h10, h13, h8, h9, h7, h80, hC0, hE0⟩ := mask4_ne_ctrl c hmask
  simp [step, h, h27, h10, h13, h8, h9, h7, h80, hC0, hE0, hmask]

theorem step_norm_four_trunc (st : AnsiLogic) (h : st.state = .NORMAL)
    (c : Nat) (rest : List Nat) (hmask : c &&& 0xF8 = 0xF0) (hlen : rest.length ≤ 2) :
    step st c rest = ((st, []), 0) := by
  obtain ⟨h27, h10, h13, h8, h9, h7, h80, hC0, hE0⟩ := mask4_ne_ctrl c hmask
  match rest with
  | [] => simp [step, h, h27, h10, h13, h8, h9, h7, h80, hC0, hE0, hmask]
  | [c1] => simp [step, h, h27, h10, h13, h8, h9, h7, h80, hC0, hE0, hmask]
  | [c1, c2] => simp [step, h, h27, h10, h13, h8, h9, h7, h80, hC0, hE0, hmask]
  | c1 :: c2 :: c3 :: r => simp at hlen

theorem step_norm_invalid (st : AnsiLogic) (h : st.state = .NORMAL)
    (c : Nat) (rest : List Nat)
    (h27 : c ≠ 27) (h10 : c ≠ 10) (h13 : c ≠ 13) (h8 : c ≠ 8) (h9 : c ≠ 9) (h7 : c ≠ 7)
    (h80 : ¬c &&& 0x80 = 0) (hC0 : ¬c &&& 0xE0 = 0xC0)
    (hE0 : ¬c &&& 0xF0 = 0xE0) (hF0 : ¬c &&& 0xF8 = 0xF0) :
    step st c rest = ((st, []), 0) := by
  simp [step, h, h27, h10, h13, h8, h9, h7, h80, hC0, hE0, hF0]

theorem step_escape (st : AnsiLogic) (h : st.state = .ESCAPE) (c : Nat) (rest : List Nat) :
    step st c rest =
      (if c = 91 then ({ st with state := .CSI, ansi_seq := [91] }, [])
      else if c = 99 then
        ({ resetState st with state := .NORMAL, ansi_seq := [] }, List.range st.term_rows)
      else ({ st with state := .NORMAL, ansi_seq := [] }, []), 0) := by
  simp only [step, h]
  split
  · rfl
  · split <;> rfl

theorem step_csi (st : AnsiLogic) (h : st.state = .CSI) (c : Nat) (rest : List Nat) :
    step st c rest =
      (if isAlphaByte c then
        (({ (parseAnsiSequence (st.ansi_seq ++ [c]) { st with ansi_seq := st.ansi_seq ++ [c] }).1
            with state := .NORMAL, ansi_seq := [] },
          (parseAnsiSequence (st.ansi_seq ++ [c]) { st with ansi_seq := st.ansi_seq ++ [c] }).2))
      else ({ st with ansi_seq := st.ansi_seq ++ [c] }, []), 0) := by
  simp only [step, h]
  split <;> rfl

/-! ### Preservation of the grid invariant -/

theorem length_setCell (buf : List (List TermChar)) (r c : Nat) (v : TermChar) :
    (setCell buf r c v).length = buf.length := by
  simp [setCell]

theorem rowlen_setCell (buf : List (List TermChar)) (r c : Nat) (v : TermChar) (cols : Nat)
    (hrows : ∀ row ∈ buf, row.length = cols) :
    ∀ row ∈ setCell buf r c v, row.length = cols := by
  intro row hrow
  by_cases hr : r < buf.length
  · rcases List.mem_or_eq_of_mem_set hrow with hmem | heq
    · exact hrows _ hmem
    · subst heq
      rw [List.length_set, List.getD_eq_getElem buf [] hr]
      exact hrows _ (List.getElem_mem hr)
  · unfold setCell at hrow
    rw [List.set_eq_of_length_le (by omega)] at hrow
    exact hrows _ hrow

theorem mem_mapIdxFrom {α : Type} (f : Nat → α → α) (i : Nat) (l : List α) (x : α)
    (hx : x ∈ mapIdxFrom f i l) : ∃ j a, a ∈ l ∧ x = f j a := by
  induction l generalizing i with
  | nil => simp [mapIdxFrom] at hx
  | cons a t ih =>
    rcases List.mem_cons.1 hx with rfl | hx'
    · exact ⟨i, a, by simp, rfl⟩
    · obtain ⟨j, b, hb, rfl⟩ := ih (i + 1) hx'
      exact ⟨j, b, by simp [hb], rfl⟩

/-- Shape preservation for the `J`/`K` fill operations. -/
theorem rowlen_fill_buffer (f : Nat → List TermChar → List TermChar)
    (hf : ∀ j row, (f j row).length = row.length)
    (buf : List (List TermChar)) (cols : Nat)
    (hrows : ∀ row ∈ buf, row.length = cols) :
    ∀ row ∈ mapIdxFrom f 0 buf, row.length = cols := by
  intro row hrow
  obtain ⟨j, a, ha, rfl⟩ := mem_mapIdxFrom f 0 buf row hrow
  rw [hf j a]
  exact hrows a ha

theorem wf_nlStep (st : AnsiLogic) (h : WF st) :
    WF (nlStep st).1 ∧ (nlStep st).1.term_cols = st.term_cols ∧
      (nlStep st).1.term_rows = st.term_rows ∧
      ∀ x ∈ (nlStep st).2, x < st.term_rows := by
  obtain ⟨hc, hr, hlen, hrows, hcr, hcc⟩ := h
  unfold nlStep
  by_cases hs : st.term_rows ≤ st.cursor.row + 1
  · rw [if_pos hs]
    refine ⟨⟨hc, hr, ?_, ?_, by simpa [scrollUp] using by omega, by simpa [scrollUp] using hc⟩,
      rfl, rfl, ?_⟩
    · simp [scrollUp, List.length_drop, hlen]
      omega
    · intro row hrow
      simp only [scrollUp] at hrow
      rcases List.mem_append.1 hrow with hd | hrep
      · exact hrows row (List.mem_of_mem_drop hd)
      · simp at hrep
        simp [hrep, scrollUp]
    · intro x hx
      simpa using List.mem_range.1 hx
  · rw [if_neg hs]
    exact ⟨⟨hc, hr, hlen, hrows, by simpa using by omega, by simpa using hc⟩, rfl, rfl,
      by intro x hx; simp at hx; omega⟩

theorem wf_putChar (st : AnsiLogic) (ch : Nat) (h : WF st) :
    WF (putChar st ch).1 ∧ (putChar st ch).1.term_cols = st.term_cols ∧
      (putChar st ch).1.term_rows = st.term_rows ∧
      ∀ x ∈ (putChar st ch).2, x < st.term_rows := by
  obtain ⟨hc, hr, hlen, hrows, hcr, hcc⟩ := h
  have hwr : st.cursor.col < st.term_cols ∧ st.cursor.row < st.term_rows := ⟨hcc, hcr⟩
  simp only [putChar, if_pos hwr]
  by_cases hwrap : st.term_cols ≤ st.cursor.col + 1
  · rw [if_pos hwrap]
    by_cases hscr : st.term_rows ≤ st.cursor.row + 1
    · rw [if_pos hscr]
      refine ⟨⟨hc, hr, ?_, ?_, by simpa [scrollUp] using by omega, by simpa [scrollUp] using hc⟩,
        rfl, rfl, ?_⟩
      · simp [scrollUp, List.length_drop, length_setCell, hlen]
        omega
      · intro row hrow
        simp only [scrollUp] at hrow
        rcases List.mem_append.1 hrow with hd | hrep
        · exact rowlen_setCell _ _ _ _ _ hrows row (List.mem_of_mem_drop hd)
        · simp at hrep
          simp [hrep, scrollUp]
      · intro x hx
        simp only [List.mem_append, List.mem_singleton, List.mem_range] at hx
        rcases hx with rfl | hlt
        · exact hcr
        · simpa using hlt
    · rw [if_neg hscr]
      refine ⟨⟨hc, hr, by simpa using by rw [length_setCell]; exact hlen,
        rowlen_setCell _ _ _ _ _ hrows, by simpa using by omega, by simpa using hc⟩,
        rfl, rfl, ?_⟩
      intro x hx
      simp at hx
      omega
  · rw [if_neg hwrap]
    refine ⟨⟨hc, hr, by simpa using by rw [length_setCell]; exact hlen,
      rowlen_setCell _ _ _ _ _ hrows, by simpa using hcr, by simpa using by omega⟩,
      rfl, rfl, ?_⟩
    intro x hx
    simp at hx
    omega

theorem wf_clearScreen (st : AnsiLogic) (h : WF st) :
    WF (clearScreen st) ∧ (clearScreen st).term_cols = st.term_cols ∧
      (clearScreen st).term_rows = st.term_rows := by
  obtain ⟨hc, hr, _, _, _, _⟩ := h
  refine ⟨⟨hc, hr, by simp [clearScreen], ?_, by simpa [clearScreen] using hr,
    by simpa [clearScreen] using hc⟩, rfl, rfl⟩
  intro row hrow
  simp only [clearScreen, List.mem_replicate] at hrow
  simp [hrow.2, clearScreen]

theorem shape_eraseDisplayToCursor (st : AnsiLogic)
    (hlen : st.text_buffer.length = st.term_rows)
    (hrows : ∀ row ∈ st.text_buffer, row.length = st.term_cols) :
    (eraseDisplayToCursor st).length = st.term_rows ∧
      ∀ row ∈ eraseDisplayToCursor st, row.length = st.term_cols := by
  constructor
  · simpa [eraseDisplayToCursor, length_mapIdxFrom] using hlen
  · exact rowlen_fill_buffer _ (by intro j row; split_ifs <;> simp [length_fillSeg]) _ _ hrows

theorem shape_eraseDisplayFromCursor (st : AnsiLogic)
    (hlen : st.text_buffer.length = st.term_rows)
    (hrows : ∀ row ∈ st.text_buffer, row.length = st.term_cols) :
    (eraseDisplayFromCursor st).length = st.term_rows ∧
      ∀ row ∈ eraseDisplayFromCursor st, row.length = st.term_cols := by
  constructor
  · simpa [eraseDisplayFromCursor, length_mapIdxFrom] using hlen
  · exact rowlen_fill_buffer _ (by intro j row; split_ifs <;> simp [length_fillSeg]) _ _ hrows

theorem shape_setRowSeg (st : AnsiLogic) (a b : Nat)
    (hlen : st.text_buffer.length = st.term_rows)
    (hrows : ∀ row ∈ st.text_buffer, row.length = st.term_cols) :
    (setRowSeg st a b).length = st.term_rows ∧
      ∀ row ∈ setRowSeg st a b, row.length = st.term_cols := by
  constructor
  · simpa [setRowSeg, length_mapIdxFrom] using hlen
  · exact rowlen_fill_buffer _ (by intro j row; split_ifs <;> simp [length_fillSeg]) _ _ hrows

theorem wf_csiFinal (fin : Nat) (params : List Nat) (st : AnsiLogic) (h : WF st) :
    WF (csiFinal fin params st).1 ∧ (csiFinal fin params st).1.term_cols = st.term_cols ∧
      (csiFinal fin params st).1.term_rows = st.term_rows ∧
      ∀ x ∈ (csiFinal fin params st).2, x < st.term_rows := by
  have hwf := h
  obtain ⟨hc, hr, hlen, hrows, hcr, hcc⟩ := h
  unfold csiFinal
  by_cases hm : fin = 109
  · rw [if_pos hm]
    exact ⟨⟨hc, hr, hlen, hrows, hcr, hcc⟩, rfl, rfl, by simp⟩
  rw [if_neg hm]
  by_cases hH : fin = 72
  · rw [if_pos hH]
    exact ⟨⟨hc, hr, hlen, hrows, by simp; omega, by simp; omega⟩, rfl, rfl, by simp⟩
  rw [if_neg hH]
  by_cases hA : fin = 65
  · rw [if_pos hA]
    exact ⟨⟨hc, hr, hlen, hrows, by simp; omega, by simpa using hcc⟩, rfl, rfl, by simp⟩
  rw [if_neg hA]
  by_cases hB : fin = 66
  · rw [if_pos hB]
    exact ⟨⟨hc, hr, hlen, hrows, by simp; omega, by simpa using hcc⟩, rfl, rfl, by simp⟩
  rw [if_neg hB]
  by_cases hC : fin = 67
  · rw [if_pos hC]
    exact ⟨⟨hc, hr, hlen, hrows, by simpa using hcr, by simp; omega⟩, rfl, rfl, by simp⟩
  rw [if_neg hC]
  by_cases hD : fin = 68
  · rw [if_pos hD]
    exact ⟨⟨hc, hr, hlen, hrows, by simpa using hcr, by simp; omega⟩, rfl, rfl, by simp⟩
  rw [if_neg hD]
  by_cases hJ : fin = 74
  · rw [if_pos hJ]
    dsimp only
    by_cases hmode1 : getParam params 0 0 = 1
    · rw [if_pos hmode1]
      obtain ⟨hl, hrw⟩ := shape_eraseDisplayToCursor st hlen hrows
      refine ⟨⟨hc, hr, by simpa using hl, by simpa using hrw,
        by simpa using hcr, by simpa using hcc⟩, rfl, rfl, ?_⟩
      intro x hx
      simp only [List.mem_range] at hx
      omega
    rw [if_neg hmode1]
    by_cases hmode2 : getParam params 0 0 = 2
    · rw [if_pos hmode2]
      obtain ⟨hwf2, hc2, hr2⟩ := wf_clearScreen st hwf
      exact ⟨hwf2, hc2, hr2, by intro x hx; simpa using List.mem_range.1 hx⟩
    rw [if_neg hmode2]
    obtain ⟨hl, hrw⟩ := shape_eraseDisplayFromCursor st hlen hrows
    refine ⟨⟨hc, hr, by simpa using hl, by simpa using hrw,
      by simpa using hcr, by simpa using hcc⟩, rfl, rfl, ?_⟩
    intro x hx
    rw [List.mem_range'] at hx
    omega
  rw [if_neg hJ]
  by_cases hK : fin = 75
  · rw [if_pos hK]
    dsimp only
    have key : ∀ a b,
        WF { st with text_buffer := setRowSeg st a b } ∧
          ({ st with text_buffer := setRowSeg st a b } : AnsiLogic).term_cols = st.term_cols ∧
          ({ st with text_buffer := setRowSeg st a b } : AnsiLogic).term_rows = st.term_rows := by
      intro a b
      obtain ⟨hl, hrw⟩ := shape_setRowSeg st a b hlen hrows
      exact ⟨⟨hc, hr, by simpa using hl, by simpa using hrw,
        by simpa using hcr, by simpa using hcc⟩, rfl, rfl⟩
    have hdirty : ∀ x ∈ [st.cursor.row], x < st.term_rows := by
      intro x hx
      simp only [List.mem_singleton] at hx
      omega
    split_ifs with h1 h2
    · obtain ⟨k1, k2, k3⟩ := key 0 (st.cursor.col + 1)
      exact ⟨k1, k2, k3, hdirty⟩
    · obtain ⟨k1, k2, k3⟩ := key 0 st.term_cols
      exact ⟨k1, k2, k3, hdirty⟩
    · obtain ⟨k1, k2, k3⟩ := key st.cursor.col st.term_cols
      exact ⟨k1, k2, k3, hdirty⟩
  rw [if_neg hK]
  exact ⟨⟨hc, hr, hlen, hrows, hcr, hcc⟩, rfl, rfl, by simp⟩

theorem wf_parseAnsiSequence (seq : List Nat) (st : AnsiLogic) (h : WF st) :
    WF (parseAnsiSequence seq st).1 ∧
      (parseAnsiSequence seq st).1.term_cols = st.term_cols ∧
      (parseAnsiSequence seq st).1.term_rows = st.term_rows ∧
      ∀ x ∈ (parseAnsiSequence seq st).2, x < st.term_rows := by
  unfold parseAnsiSequence
  split
  · exact wf_csiFinal _ _ st h
  · exact ⟨h, rfl, rfl, by simp⟩

theorem wf_step (st : AnsiLogic) (c : Nat) (rest : List Nat) (h : WF st) :
    WF (step st c rest).1.1 ∧ (step st c rest).1.1.term_cols = st.term_cols ∧
      (step st c rest).1.1.term_rows = st.term_rows ∧
      ∀ x ∈ (step st c rest).1.2, x < st.term_rows := by
  have hwf := h
  obtain ⟨hc, hr, hlen, hrows, hcr, hcc⟩ := h
  rcases hstate : st.state with _ | _ | _
  · -- NORMAL
    by_cases h27 : c = 27
    · subst h27
      rw [step_norm_esc st hstate rest]
      exact ⟨⟨hc, hr, hlen, hrows, hcr, hcc⟩, rfl, rfl, by simp⟩
    by_cases h10 : c = 10
    · subst h10
      rw [step_norm_nl st hstate rest]
      exact wf_nlStep st hwf
    by_cases h13 : c = 13
    · subst h13
      match rest with
      | 10 :: r =>
        rw [step_norm_crnl st hstate r]
        exact wf_nlStep st hwf
      | [] =>
        rw [step_norm_cr st hstate [] (by simp)]
        exact ⟨⟨hc, hr, hlen, hrows, by simpa using hcr, by simpa using hc⟩, rfl, rfl,
          by intro x hx; simp at hx; omega⟩
      | d :: r =>
        by_cases hd : d = 10
        · subst hd
          rw [step_norm_crnl st hstate r]
          exact wf_nlStep st hwf
        · rw [step_norm_cr st hstate (d :: r) (by simpa using hd)]
          exact ⟨⟨hc, hr, hlen, hrows, by simpa using hcr, by simpa using hc⟩, rfl, rfl,
            by intro x hx; simp at hx; omega⟩
    by_cases h8 : c = 8
    · subst h8
      rw [step_norm_bs st hstate rest]
      by_cases hcol : 0 < st.cursor.col
      · rw [if_pos hcol]
        refine ⟨⟨hc, hr, by simpa using by rw [length_setCell]; exact hlen,
          rowlen_setCell _ _ _ _ _ hrows, by simpa using hcr, by simpa using by omega⟩,
          rfl, rfl, ?_⟩
        intro x hx
        simp at hx
        omega
      · rw [if_neg hcol]
        exact ⟨⟨hc, hr, hlen, hrows, hcr, hcc⟩, rfl, rfl, by simp⟩
    by_cases h9 : c = 9
    · subst h9
      rw [step_norm_tab st hstate rest]
      refine ⟨⟨hc, hr, hlen, hrows, by simpa using hcr, ?_⟩, rfl, rfl, by simp⟩
      simp only
      split_ifs with ht
      · omega
      · omega
    by_cases h7 : c = 7
    · subst h7
      rw [step_norm_bell st hstate rest]
      exact ⟨⟨hc, hr, hlen, hrows, hcr, hcc⟩, rfl, rfl, by simp⟩
    by_cases h80 : c &&& 0x80 = 0
    · rw [step_norm_ascii st hstate rest c h80 h27 h10 h13 h8 h9 h7]
      exact wf_putChar st c hwf
    by_cases hC0 : c &&& 0xE0 = 0xC0
    · match rest with
      | [] =>
        rw [step_norm_two_trunc st hstate c hC0]
        exact ⟨⟨hc, hr, hlen, hrows, hcr, hcc⟩, rfl, rfl, by simp⟩
      | c1 :: r =>
        rw [step_norm_two st hstate c c1 r hC0]
        exact wf_putChar st _ hwf
    by_cases hE0 : c &&& 0xF0 = 0xE0
    · match rest with
      | [] =>
        rw [step_norm_three_trunc st hstate c [] hE0 (by simp)]
        exact ⟨⟨hc, hr, hlen, hrows, hcr, hcc⟩, rfl, rfl, by simp⟩
      | [c1] =>
        rw [step_norm_three_trunc st hstate c [c1] hE0 (by simp)]
        exact ⟨⟨hc, hr, hlen, hrows, hcr, hcc⟩, rfl, rfl, by simp⟩
      | c1 :: c2 :: r =>
        rw [step_norm_three st hstate c c1 c2 r hE0]
        exact wf_putChar st _ hwf
    by_cases hF0 : c &&& 0xF8 = 0xF0
    · match rest with
      | [] =>
        rw [step_norm_four_trunc st hstate c [] hF0 (by simp)]
        exact ⟨⟨hc, hr, hlen, hrows, hcr, hcc⟩, rfl, rfl, by simp⟩
      | [c1] =>
        rw [step_norm_four_trunc st hstate c [c1] hF0 (by simp)]
        exact ⟨⟨hc, hr, hlen, hrows, hcr, hcc⟩, rfl, rfl, by simp⟩
      | [c1, c2] =>
        rw [step_norm_four_trunc st hstate c [c1, c2] hF0 (by simp)]
        exact ⟨⟨hc, hr, hlen, hrows, hcr, hcc⟩, rfl, rfl, by simp⟩
      | c1 :: c2 :: c3 :: r =>
        rw [step_norm_four st hstate c c1 c2 c3 r hF0]
        exact wf_putChar st _ hwf
    · rw [step_norm_invalid st hstate c rest h27 h10 h13 h8 h9 h7 h80 hC0 hE0 hF0]
      exact ⟨⟨hc, hr, hlen, hrows, hcr, hcc⟩, rfl, rfl, by simp⟩
  · -- ESCAPE
    rw [step_escape st hstate c rest]
    by_cases h91 : c = 91
    · rw [if_pos h91]
      exact ⟨⟨hc, hr, hlen, hrows, hcr, hcc⟩, rfl, rfl, by simp⟩
    rw [if_neg h91]
    by_cases h99 : c = 99
    · rw [if_pos h99]
      have hreset : WF (resetState st) ∧ (resetState st).term_cols = st.term_cols ∧
          (resetState st).term_rows = st.term_rows := by
        unfold resetState
        have := wf_clearScreen { st with current_attr := {} }
          ⟨hc, hr, hlen, hrows, hcr, hcc⟩
        simpa using this
      obtain ⟨⟨k1, k2, k3, k4, k5, k6⟩, kc, kr⟩ := hreset
      refine ⟨⟨by simpa [kc] using k1, by simpa [kr] using k2, by simpa using k3,
        by simpa using k4, by simpa using k5, by simpa using k6⟩, by simpa using kc,
        by simpa using kr, ?_⟩
      intro x hx
      simpa using List.mem_range.1 hx
    rw [if_neg h99]
    exact ⟨⟨hc, hr, hlen, hrows, hcr, hcc⟩, rfl, rfl, by simp⟩
  · -- CSI
    rw [step_csi st hstate c rest]
    by_cases halpha : isAlphaByte c
    · rw [if_pos halpha]
      have hwf2 : WF { st with ansi_seq := st.ansi_seq ++ [c] } :=
        ⟨hc, hr, hlen, hrows, hcr, hcc⟩
      obtain ⟨⟨k1, k2, k3, k4, k5, k6⟩, kc, kr, kd⟩ :=
        wf_parseAnsiSequence (st.ansi_seq ++ [c]) { st with ansi_seq := st.ansi_seq ++ [c] } hwf2
      exact ⟨⟨by simpa [kc] using k1, by simpa [kr] using k2, by simpa using k3,
        by simpa using k4, by simpa using k5, by simpa using k6⟩, by simpa using kc,
        by simpa using kr, by simpa using kd⟩
    · rw [if_neg halpha]
      exact ⟨⟨hc, hr, hlen, hrows, hcr, hcc⟩, rfl, rfl, by simp⟩

theorem wf_processBytes_aux (n : Nat) :
    ∀ (st : AnsiLogic) (l : List Nat), l.length ≤ n → WF st →
      WF (processBytes st l).1 ∧ (processBytes st l).1.term_cols = st.term_cols ∧
        (processBytes st l).1.term_rows = st.term_rows ∧
        ∀ x ∈ (processBytes st l).2, x < st.term_rows := by
  induction n with
  | zero =>
    intro st l hl h
    have : l = [] := List.length_eq_zero.1 (by omega)
    subst this
    rw [processBytes_nil]
    exact ⟨h, rfl, rfl, by simp⟩
  | succ n ih =>
    intro st l hl h
    match l with
    | [] =>
      rw [processBytes_nil]
      exact ⟨h, rfl, rfl, by simp⟩
    | c :: rest =>
      rw [processBytes_cons]
      obtain ⟨hwfs, hcs, hrs, hds⟩ := wf_step st c rest h
      have hlen2 : (rest.drop (step st c rest).2).length ≤ n := by
        rw [List.length_drop]
        simp only [List.length_cons] at hl
        omega
      obtain ⟨hwfr, hcr2, hrr2, hdr⟩ :=
        ih (step st c rest).1.1 (rest.drop (step st c rest).2) hlen2 hwfs
      refine ⟨hwfr, by rw [hcr2, hcs], by rw [hrr2, hrs], ?_⟩
      intro x hx
      rcases List.mem_append.1 hx with hx | hx
      · exact hds x hx
      · rw [← hrs]
        exact hdr x hx

theorem wf_processBytes (st : AnsiLogic) (l : List Nat) (h : WF st) :
    WF (processBytes st l).1 ∧ (processBytes st l).1.term_cols = st.term_cols ∧
      (processBytes st l).1.term_rows = st.term_rows ∧
      ∀ x ∈ (processBytes st l).2, x < st.term_rows :=
  wf_processBytes_aux l.length st l le_rfl h

theorem wf_processInput (st : AnsiLogic) (l : List Nat) (h : WF st) :
    WF (processInput st l).1 ∧ (processInput st l).1.term_cols = st.term_cols ∧
      (processInput st l).1.term_rows = st.term_rows ∧
      ∀ x ∈ (processInput st l).2, x < st.term_rows := by
  obtain ⟨h1, h2, h3, h4⟩ := wf_processBytes st l h
  refine ⟨h1, h2, h3, ?_⟩
  intro x hx
  simp only [processInput] at hx
  exact h4 x ((mem_sortNat _ x).1 ((mem_dedupConsec _ x).1 hx))

theorem wf_resize (st : AnsiLogic) (new_cols new_rows : Nat)
    (hcols : 1 ≤ new_cols) (hrows : 1 ≤ new_rows) :
    WF (st.resize new_cols new_rows) := by
  refine ⟨by simpa [AnsiLogic.resize] using hcols, by simpa [AnsiLogic.resize] using hrows,
    ?_, ?_, ?_, ?_⟩
  · simp [AnsiLogic.resize, length_listResize]
  · intro row hrow
    simp only [AnsiLogic.resize, List.mem_map] at hrow
    obtain ⟨line, _, rfl⟩ := hrow
    simp [length_listResize, AnsiLogic.resize]
  · simp only [AnsiLogic.resize]
    omega
  · simp only [AnsiLogic.resize]
    omega

theorem wf_init (cols rows : Nat) (hcols : 1 ≤ cols) (hrows : 1 ≤ rows) :
    WF (AnsiLogic.init cols rows) := by
  refine ⟨hcols, hrows, by simp [AnsiLogic.init], ?_, by simpa [AnsiLogic.init] using hrows,
    by simpa [AnsiLogic.init] using hcols⟩
  intro row hrow
  simp only [AnsiLogic.init, List.mem_replicate] at hrow
  simp [hrow.2, AnsiLogic.init]

/-! ### Claim theorems -/

/-- Folding any sequence of valid operations preserves well-formedness. -/
theorem wf_foldl_ops (ops : List TermOp) :
    ∀ st, WF st → (∀ op ∈ ops, opOk op) → WF (ops.foldl applyOp st) := by
  induction ops with
  | nil =>
    intro st h _
    simpa using h
  | cons op t ih =>
    intro st h hops
    rw [List.foldl_cons]
    apply ih
    · cases op with
      | inp bytes => exact (wf_processInput st bytes h).1
      | resz c r =>
        obtain ⟨h1, h2⟩ := hops (.resz c r) (by simp)
        exact wf_resize st c r h1 h2
    · intro op2 hop2
      exact hops op2 (by simp [hop2])

/-- C1: for every grid with `rows ≥ 1` and `cols ≥ 1`, after any sequence of
`process_input` and `resize` operations (resize arguments ≥ 1), the cursor
satisfies `0 ≤ row ≤ rows-1` and `0 ≤ col ≤ cols-1` with respect to the
current dimensions, and the text buffer has exactly `rows` rows each of
exactly `cols` cells; no operation leaves the cursor outside the grid. -/
theorem C1_invariant (cols rows : Nat) (hc : 1 ≤ cols) (hr : 1 ≤ rows)
    (ops : List TermOp) (hops : ∀ op ∈ ops, opOk op) :
    WF (ops.foldl applyOp (AnsiLogic.init cols rows)) :=
  wf_foldl_ops ops (AnsiLogic.init cols rows) (wf_init cols rows hc hr) hops

/-- Witness for C1 at a concrete instance. -/
theorem C1_invariant_witness :
    WF ([TermOp.inp [97, 10, 226], TermOp.resz 3 2, TermOp.inp [27, 91, 74]].foldl applyOp
      (AnsiLogic.init 2 2)) :=
  C1_invariant 2 2 (by decide) (by decide) _ (by decide)

/-- C9: for every parser state and every input chunk, the list returned by
`process_input` is sorted strictly increasing, has no duplicate row indices,
every element is a valid row index in `[0, rows-1]`, and the list is a pure
per-call output: any later call depends only on the returned state, so the
dirty list of an earlier call cannot influence it. -/
theorem C9_dirty_rows (st : AnsiLogic) (buf : List Nat) (h : WF st) :
    ((processInput st buf).2).Sorted (· < ·) ∧
      ((processInput st buf).2).Nodup ∧
      (∀ x ∈ (processInput st buf).2, x < st.term_rows) ∧
      (∀ (st2 : AnsiLogic) (buf1 buf1' buf2 : List Nat),
        (processInput st2 buf1).1 = (processInput st2 buf1').1 →
        processInput (processInput st2 buf1).1 buf2 =
          processInput (processInput st2 buf1').1 buf2) := by
  have hsorted : ((processInput st buf).2).Sorted (· < ·) := by
    simp only [processInput]
    exact dedupConsec_sorted_lt _ (sorted_sortNat _)
  exact ⟨hsorted, hsorted.nodup, (wf_processInput st buf h).2.2.2,
    fun st2 b1 b1' b2 heq => by rw [heq]⟩

/-- Witness for C9 at a concrete instance. -/
theorem C9_dirty_rows_witness :
    ((processInput (AnsiLogic.init 2 2) [97, 98, 99]).2).Sorted (· < ·) ∧
      ((processInput (AnsiLogic.init 2 2) [97, 98, 99]).2).Nodup ∧
      (∀ x ∈ (processInput (AnsiLogic.init 2 2) [97, 98, 99]).2,
        x < (AnsiLogic.init 2 2).term_rows) ∧
      (∀ (st2 : AnsiLogic) (buf1 buf1' buf2 : List Nat),
        (processInput st2 buf1).1 = (processInput st2 buf1').1 →
        processInput (processInput st2 buf1).1 buf2 =
          processInput (processInput st2 buf1').1 buf2) :=
  C9_dirty_rows (AnsiLogic.init 2 2) [97, 98, 99] (by decide)

/-- C8: key translation is a pure function of the key event: Shift+`a`
yields "A", Shift+`1` yields "!", Ctrl+`a` yields byte 0x01, Ctrl+`z`
yields byte 0x1A, the Up arrow yields ESC `[` `A`, and pure-modifier key
events yield the empty byte sequence (for any Unicode-uppercase helper
supplied for the non-ASCII branch). -/
theorem C8_key_translation :
    ∀ uT : Nat → Nat,
      processKey uT ⟨.CHARACTER, 97, true, false⟩ = [65] ∧
      processKey uT ⟨.CHARACTER, 49, true, false⟩ = [33] ∧
      processKey uT ⟨.CHARACTER, 97, false, true⟩ = [1] ∧
      processKey uT ⟨.CHARACTER, 122, false, true⟩ = [26] ∧
      (∀ ch sh ct, processKey uT ⟨.UP, ch, sh, ct⟩ = [27, 91, 65]) ∧
      (∀ ch sh ct,
        processKey uT ⟨.CAPSLOCK, ch, sh, ct⟩ = [] ∧
        processKey uT ⟨.LEFT_SHIFT, ch, sh, ct⟩ = [] ∧
        processKey uT ⟨.RIGHT_SHIFT, ch, sh, ct⟩ = [] ∧
        processKey uT ⟨.LEFT_CTRL, ch, sh, ct⟩ = [] ∧
        processKey uT ⟨.RIGHT_CTRL, ch, sh, ct⟩ = [] ∧
        processKey uT ⟨.LEFT_OPTION, ch, sh, ct⟩ = [] ∧
        processKey uT ⟨.RIGHT_OPTION, ch, sh, ct⟩ = [] ∧
        processKey uT ⟨.LEFT_COMMAND, ch, sh, ct⟩ = [] ∧
        processKey uT ⟨.RIGHT_COMMAND, ch, sh, ct⟩ = []) := by
  intro uT
  exact ⟨rfl, rfl, rfl, rfl, fun ch sh ct => rfl,
    fun ch sh ct => ⟨rfl, rfl, rfl, rfl, rfl, rfl, rfl, rfl, rfl⟩⟩

/-- C10: for every CHARACTER key event with Ctrl set, `process_key` returns
exactly the single byte `codepoint & 0x1F` regardless of whether the
codepoint is a letter — e.g. Ctrl+`1` yields byte 0x11 — and the Shift
modifier is ignored whenever Ctrl is set. -/
theorem C10_ctrl_byte :
    (∀ (uT : Nat → Nat) (cp : Nat) (sh : Bool),
      processKey uT ⟨.CHARACTER, cp, sh, true⟩ = [cp &&& 0x1F]) ∧
    (∀ uT : Nat → Nat, processKey uT ⟨.CHARACTER, 49, false, true⟩ = [0x11]) ∧
    (∀ (uT : Nat → Nat) (cp : Nat),
      processKey uT ⟨.CHARACTER, cp, true, true⟩ =
        processKey uT ⟨.CHARACTER, cp, false, true⟩) := by
  have h1 : ∀ (uT : Nat → Nat) (cp : Nat) (sh : Bool),
      processKey uT ⟨.CHARACTER, cp, sh, true⟩ = [cp &&& 0x1F] := fun _ _ _ => rfl
  exact ⟨h1, fun _ => rfl, fun uT cp => (h1 uT cp true).trans (h1 uT cp false).symm⟩

theorem nlStep_scroll (st : AnsiLogic) (hs : st.term_rows ≤ st.cursor.row + 1) :
    nlStep st =
      (scrollUp { st with cursor := ⟨st.cursor.row + 1, 0⟩ }, List.range st.term_rows) := by
  simp [nlStep, hs]

theorem nlStep_advance (st : AnsiLogic) (hs : st.cursor.row + 1 < st.term_rows) :
    nlStep st = ({ st with cursor := ⟨st.cursor.row + 1, 0⟩ }, [st.cursor.row + 1]) := by
  simp [nlStep, show ¬st.term_rows ≤ st.cursor.row + 1 by omega]

theorem sortDedup_of_sorted (l : List Nat) (h : l.Sorted (· < ·)) :
    dedupConsec (sortNat l) = l := by
  rw [sortNat_eq_self l (h.imp le_of_lt), dedupConsec_eq_self l h]

/-- C2: `process_input("\n")` with the cursor on the last row scrolls: the
old row 0 is discarded and relative row order is preserved (new row `r-1`
equals old row `r`, in particular the cell at `(rows-2, 0)` afterwards
equals the old cell at `(rows-1, 0)`), a blank row with the current
attribute is appended at the bottom, the cursor ends at `(rows-1, 0)`, and
every row index `0..rows-1` appears in the returned dirty set. -/
theorem C2_newline_scroll (st : AnsiLogic) (h : WF st) (hn : st.state = AnsiState.NORMAL)
    (hlast : st.cursor.row = st.term_rows - 1) :
    (processInput st [10]).1.text_buffer =
        st.text_buffer.drop 1 ++ [List.replicate st.term_cols (blank st.current_attr)] ∧
      (processInput st [10]).1.cursor = ⟨st.term_rows - 1, 0⟩ ∧
      (processInput st [10]).2 = List.range st.term_rows ∧
      (∀ r, 1 ≤ r → r < st.term_rows →
        (processInput st [10]).1.text_buffer[r - 1]? = st.text_buffer[r]?) ∧
      (2 ≤ st.term_rows →
        cellAt (processInput st [10]).1 (st.term_rows - 2) 0 =
          cellAt st (st.term_rows - 1) 0) := by
  obtain ⟨hc, hr, hlen, hrows, hcr, hcc⟩ := h
  have hscroll : st.term_rows ≤ st.cursor.row + 1 := by omega
  have hpi : processInput st [10] =
      (scrollUp { st with cursor := ⟨st.cursor.row + 1, 0⟩ }, List.range st.term_rows) := by
    have hpb : processBytes st [10] =
        (scrollUp { st with cursor := ⟨st.cursor.row + 1, 0⟩ }, List.range st.term_rows) := by
      rw [processBytes_cons, step_norm_nl st hn, nlStep_scroll st hscroll]
      simp [processBytes_nil]
    simp only [processInput, hpb]
    rw [sortDedup_of_sorted _ (List.pairwise_lt_range st.term_rows)]
  rw [hpi]
  have hbuf : (scrollUp { st with cursor := ⟨st.cursor.row + 1, 0⟩ }).text_buffer =
      st.text_buffer.drop 1 ++ [List.replicate st.term_cols (blank st.current_attr)] := by
    simp [scrollUp]
  have hrow : ∀ r, 1 ≤ r → r < st.term_rows →
      (st.text_buffer.drop 1 ++
        [List.replicate st.term_cols (blank st.current_attr)])[r - 1]? =
        st.text_buffer[r]? := by
    intro r h1 h2
    rw [List.getElem?_append]
    have hlt : r - 1 < (st.text_buffer.drop 1).length := by
      rw [List.length_drop]
      omega
    rw [if_pos hlt, List.getElem?_drop]
    congr 1
    omega
  refine ⟨hbuf, by simp [scrollUp], rfl, by simpa [hbuf] using hrow, ?_⟩
  intro h2
  have hx := hrow (st.term_rows - 1) (by omega) (by omega)
  rw [show st.term_rows - 1 - 1 = st.term_rows - 2 by omega] at hx
  simp only [cellAt, List.getD_eq_getElem?_getD, hbuf, hx]

/-- Witness for C2 at a concrete instance. -/
theorem C2_newline_scroll_witness :
    ((processInput ((processInput (AnsiLogic.init 2 2) [97, 10, 98]).1) [10]).1.cursor =
        ⟨1, 0⟩ ∧
      (processInput ((processInput (AnsiLogic.init 2 2) [97, 10, 98]).1) [10]).2 =
        List.range 2) := by
  have h := C2_newline_scroll ((processInput (AnsiLogic.init 2 2) [97, 10, 98]).1)
    (by decide) (by decide) (by decide)
  exact ⟨h.2.1, h.2.2.1⟩

/-! ### Symbolic evaluation of full escape sequences -/

theorem getD_setCell_self (buf : List (List TermChar)) (r c : Nat) (v : TermChar)
    (hr : r < buf.length) (hc : c < (buf.getD r []).length) :
    ((setCell buf r c v).getD r []).getD c (blank {}) = v := by
  unfold setCell
  have h1 : (buf.set r ((buf.getD r []).set c v)).getD r [] = (buf.getD r []).set c v := by
    rw [List.getD_eq_getElem?_getD, List.getElem?_set_self (by omega)]
    rfl
  rw [h1, List.getD_eq_getElem?_getD, List.getElem?_set_self (by omega)]
  rfl

theorem processBytes_esc_open (st : AnsiLogic) (hn : st.state = AnsiState.NORMAL)
    (l : List Nat) :
    processBytes st (27 :: 91 :: l) =
      processBytes { st with state := .CSI, ansi_seq := [91] } l := by
  rw [processBytes_cons, step_norm_esc st hn]
  simp only [List.drop_zero]
  rw [processBytes_cons, step_escape _ (by rfl) 91]
  norm_num

theorem processBytes_csi_run (st : AnsiLogic) :
    ∀ (body : List Nat), st.state = AnsiState.CSI →
      (∀ b ∈ body, isAlphaByte b = false) → ∀ (fin : Nat), isAlphaByte fin = true →
      processBytes st (body ++ [fin]) =
        ({ (parseAnsiSequence (st.ansi_seq ++ body ++ [fin])
            { st with ansi_seq := st.ansi_seq ++ body ++ [fin] }).1 with
            state := .NORMAL, ansi_seq := [] },
          (parseAnsiSequence (st.ansi_seq ++ body ++ [fin])
            { st with ansi_seq := st.ansi_seq ++ body ++ [fin] }).2) := by
  intro body
  induction body generalizing st with
  | nil =>
    intro h _ fin hfin
    rw [List.nil_append, processBytes_cons, step_csi st h fin, if_pos hfin]
    simp only [List.drop_zero, processBytes_nil, List.append_nil]
  | cons b body ih =>
    intro h hbody fin hfin
    rw [List.cons_append, processBytes_cons, step_csi st h b,
      if_neg (by simpa using hbody b (by simp))]
    simp only [List.drop_zero, List.nil_append]
    rw [ih { st with ansi_seq := st.ansi_seq ++ [b] } (by simpa using h)
      (fun x hx => hbody x (by simp [hx])) fin hfin]
    simp only [List.append_assoc, List.cons_append, List.nil_append]

theorem processBytes_csi_seq (st : AnsiLogic) (hn : st.state = AnsiState.NORMAL)
    (body : List Nat) (fin : Nat)
    (hbody : ∀ b ∈ body, isAlphaByte b = false) (hfin : isAlphaByte fin = true) :
    processBytes st (27 :: 91 :: (body ++ [fin])) =
      ({ (parseAnsiSequence (91 :: (body ++ [fin]))
          { st with state := .CSI, ansi_seq := 91 :: (body ++ [fin]) }).1 with
          state := .NORMAL, ansi_seq := [] },
        (parseAnsiSequence (91 :: (body ++ [fin]))
          { st with state := .CSI, ansi_seq := 91 :: (body ++ [fin]) }).2) := by
  rw [processBytes_esc_open st hn]
  rw [processBytes_csi_run _ body rfl hbody fin hfin]
  simp only [List.cons_append, List.nil_append]

theorem putChar_buffer (st : AnsiLogic) (ch : Nat)
    (hcc : st.cursor.col < st.term_cols) (hcr : st.cursor.row < st.term_rows)
    (hns : ¬(st.term_cols ≤ st.cursor.col + 1 ∧ st.term_rows ≤ st.cursor.row + 1)) :
    (putChar st ch).1.text_buffer =
      setCell st.text_buffer st.cursor.row st.cursor.col ⟨ch, st.current_attr⟩ := by
  simp only [putChar, if_pos (⟨hcc, hcr⟩ : _ ∧ _)]
  by_cases hw : st.term_cols ≤ st.cursor.col + 1
  · rw [if_pos (by simpa using hw)]
    rw [if_neg (by simp; omega)]
  · rw [if_neg (by simpa using hw)]

theorem processInput_single_ascii (st : AnsiLogic) (hn : st.state = AnsiState.NORMAL)
    (c : Nat) (hmask : c &&& 0x80 = 0)
    (h27 : c ≠ 27) (h10 : c ≠ 10) (h13 : c ≠ 13) (h8 : c ≠ 8) (h9 : c ≠ 9) (h7 : c ≠ 7) :
    (processInput st [c]).1 = (putChar st c).1 := by
  simp only [processInput]
  rw [processBytes_cons, step_norm_ascii st hn [] c hmask h27 h10 h13 h8 h9 h7]
  simp [processBytes_nil]

/-- C4: `ESC [ 31 m` sets the current foreground to the red entry of the
color table, so a character written afterwards stores that foreground in
its cell; a following `ESC [ 0 m` restores the default attribute exactly;
within a single SGR dispatch a parameter of 1 switches the active table to
bright for indexed selections (30-37 / 40-47) processed after it in that
same call, only affecting parameters processed afterward, with the table
starting as normal at the beginning of each dispatch; and unrecognized SGR
codes are ignored. -/
theorem C4_sgr_colors (st : AnsiLogic) (h : WF st) (hn : st.state = AnsiState.NORMAL)
    (hnb : ¬(st.term_cols ≤ st.cursor.col + 1 ∧ st.term_rows ≤ st.cursor.row + 1)) :
    (processInput st [27, 91, 51, 49, 109]).1.current_attr =
        { st.current_attr with fg := ⟨192, 0, 0⟩ } ∧
      (cellAt (processInput (processInput st [27, 91, 51, 49, 109]).1 [97]).1
          st.cursor.row st.cursor.col) =
        ⟨97, { st.current_attr with fg := ⟨192, 0, 0⟩ }⟩ ∧
      (processInput (processInput st [27, 91, 51, 49, 109]).1 [27, 91, 48, 109]).1.current_attr =
        ({} : CharAttr) ∧
      (∀ (ba : Bool × CharAttr) (rest : List Nat),
        List.foldl sgrStep ba (1 :: rest) =
          List.foldl sgrStep (true, { ba.2 with fg := brightColors 7 }) rest) ∧
      (∀ (br : Bool) (a : CharAttr) (p : Nat), 30 ≤ p → p ≤ 37 →
        sgrStep (br, a) p =
          (br, { a with fg := if br then brightColors (p - 30) else normalColors (p - 30) })) ∧
      (∀ (br : Bool) (a : CharAttr) (p : Nat), 40 ≤ p → p ≤ 47 →
        sgrStep (br, a) p =
          (br, { a with bg := if br then brightColors (p - 40) else normalColors (p - 40) })) ∧
      (∀ (params : List Nat) (a : CharAttr),
        sgrApply params a = (List.foldl sgrStep (false, a) params).2) ∧
      (∀ (br : Bool) (a : CharAttr) (p : Nat),
        p ≠ 0 → p ≠ 1 → ¬(30 ≤ p ∧ p ≤ 37) → ¬(40 ≤ p ∧ p ≤ 47) →
          ¬(90 ≤ p ∧ p ≤ 97) → ¬(100 ≤ p ∧ p ≤ 107) → sgrStep (br, a) p = (br, a)) := by
  obtain ⟨hc, hr, hlen, hrows, hcr, hcc⟩ := h
  have hst1 : (processInput st [27, 91, 51, 49, 109]).1 =
      { st with
        current_attr := { st.current_attr with fg := ⟨192, 0, 0⟩ }
        state := .NORMAL
        ansi_seq := [] } := by
    simp only [processInput]
    rw [show ([27, 91, 51, 49, 109] : List Nat) = 27 :: 91 :: ([51, 49] ++ [109]) from rfl,
      processBytes_csi_seq st hn [51, 49] 109 (by decide) (by decide)]
    rfl
  refine ⟨by rw [hst1], ?_, ?_, ?_, ?_, ?_, fun params a => rfl, ?_⟩
  · -- the written cell carries the red foreground
    rw [hst1]
    set st1 : AnsiLogic :=
      { st with
        current_attr := { st.current_attr with fg := ⟨192, 0, 0⟩ }
        state := .NORMAL
        ansi_seq := [] } with hst1def
    have hin : (processInput st1 [97]).1 = (putChar st1 97).1 :=
      processInput_single_ascii st1 rfl 97 (by decide) (by decide) (by decide) (by decide)
        (by decide) (by decide) (by decide)
    rw [hin]
    have hbuf : (putChar st1 97).1.text_buffer =
        setCell st1.text_buffer st1.cursor.row st1.cursor.col ⟨97, st1.current_attr⟩ :=
      putChar_buffer st1 97 (by simpa [hst1def] using hcc) (by simpa [hst1def] using hcr)
        (by simpa [hst1def] using hnb)
    unfold cellAt
    rw [hbuf]
    have : st1.cursor = st.cursor := rfl
    rw [this]
    have hrowlen : (st.text_buffer.getD st.cursor.row []).length = st.term_cols := by
      rw [List.getD_eq_getElem st.text_buffer [] (by omega)]
      exact hrows _ (List.getElem_mem (by omega))
    exact getD_setCell_self st.text_buffer st.cursor.row st.cursor.col _ (by omega)
      (by rw [hrowlen]; exact hcc)
  · -- ESC [ 0 m restores the default attribute
    rw [hst1]
    set st1 : AnsiLogic :=
      { st with
        current_attr := { st.current_attr with fg := ⟨192, 0, 0⟩ }
        state := .NORMAL
        ansi_seq := [] } with hst1def
    simp only [processInput]
    rw [show ([27, 91, 48, 109] : List Nat) = 27 :: 91 :: ([48] ++ [109]) from rfl,
      processBytes_csi_seq st1 rfl [48] 109 (by decide) (by decide)]
    rfl
  · intro ba rest
    rw [List.foldl_cons]
    rfl
  · intro br a p h1 h2
    simp [sgrStep, show p ≠ 0 by omega, show p ≠ 1 by omega, h1, h2]
  · intro br a p h1 h2
    simp [sgrStep, show p ≠ 0 by omega, show p ≠ 1 by omega,
      show ¬(30 ≤ p ∧ p ≤ 37) by omega, h1, h2]
  · intro br a p h0 h1 h30 h40 h90 h100
    simp [sgrStep, h0, h1, h30, h40, h90, h100]

/-- Witness for C4 at a concrete instance. -/
theorem C4_sgr_colors_witness :
    (processInput (AnsiLogic.init 3 3) [27, 91, 51, 49, 109]).1.current_attr =
        { (AnsiLogic.init 3 3).current_attr with fg := ⟨192, 0, 0⟩ } ∧
      (cellAt (processInput (processInput (AnsiLogic.init 3 3) [27, 91, 51, 49, 109]).1
          [97]).1 (AnsiLogic.init 3 3).cursor.row (AnsiLogic.init 3 3).cursor.col) =
        ⟨97, { (AnsiLogic.init 3 3).current_attr with fg := ⟨192, 0, 0⟩ }⟩ := by
  have h := C4_sgr_colors (AnsiLogic.init 3 3) (by decide) (by decide) (by decide)
  exact ⟨h.1, h.2.1⟩

/-- C6: CSI cursor movement: `H` sets the cursor to `param[0]` (default 1)
minus 1 and `param[1]` (default 1) minus 1, clamped into the grid; `A`/`B`/
`C`/`D` move up/down/right/left by `param[0]` with default 1, a parameter
value of 0 being treated as 1, clamped into range; in particular starting
at `(5,10)` in an 80×24 buffer, `ESC [3;5H` gives `(2,4)`, then `ESC [2A`
gives `(0,4)`, `ESC [3B` gives `(3,4)`, `ESC [5C` gives `(3,9)`, `ESC [2D`
gives `(3,7)`, and `ESC [0A` moves by 1, not 0. -/
theorem C6_cursor_movement :
    (∀ (st : AnsiLogic) (params : List Nat),
      (csiFinal 72 params st).1.cursor =
        ⟨min (getParam params 0 1 - 1) (st.term_rows - 1),
          min (getParam params 1 1 - 1) (st.term_cols - 1)⟩) ∧
    (∀ (st : AnsiLogic) (params : List Nat),
      (csiFinal 65 params st).1.cursor =
        ⟨st.cursor.row - getParam params 0 1, st.cursor.col⟩) ∧
    (∀ (st : AnsiLogic) (params : List Nat),
      (csiFinal 66 params st).1.cursor =
        ⟨min (st.term_rows - 1) (st.cursor.row + getParam params 0 1), st.cursor.col⟩) ∧
    (∀ (st : AnsiLogic) (params : List Nat),
      (csiFinal 67 params st).1.cursor =
        ⟨st.cursor.row, min (st.term_cols - 1) (st.cursor.col + getParam params 0 1)⟩) ∧
    (∀ (st : AnsiLogic) (params : List Nat),
      (csiFinal 68 params st).1.cursor =
        ⟨st.cursor.row, st.cursor.col - getParam params 0 1⟩) ∧
    (∀ (ps : List Nat) (i : Nat), ps[i]? = some 0 → getParam ps i 1 = 1) ∧
    (let s0 := (processInput (AnsiLogic.init 80 24) [27, 91, 54, 59, 49, 49, 72]).1
     let s1 := (processInput s0 [27, 91, 51, 59, 53, 72]).1
     let s2 := (processInput s1 [27, 91, 50, 65]).1
     let s3 := (processInput s2 [27, 91, 51, 66]).1
     let s4 := (processInput s3 [27, 91, 53, 67]).1
     let s5 := (processInput s4 [27, 91, 50, 68]).1
     let s6 := (processInput s5 [27, 91, 48, 65]).1
     s0.cursor = ⟨5, 10⟩ ∧ s1.cursor = ⟨2, 4⟩ ∧ s2.cursor = ⟨0, 4⟩ ∧ s3.cursor = ⟨3, 4⟩ ∧
       s4.cursor = ⟨3, 9⟩ ∧ s5.cursor = ⟨3, 7⟩ ∧ s6.cursor = ⟨2, 7⟩) := by
  refine ⟨fun st params => rfl, fun st params => rfl, fun st params => rfl,
    fun st params => rfl, fun st params => rfl, ?_, ?_⟩
  · intro ps i h
    simp [getParam, h]
  · exact ⟨by decide, by decide, by decide, by decide, by decide, by decide, by decide⟩

/-- Witness for C6 at a concrete instance. -/
theorem C6_cursor_movement_witness :
    getParam [0] 0 1 = 1 ∧
      (csiFinal 72 [3, 5] (AnsiLogic.init 80 24)).1.cursor = ⟨2, 4⟩ := by
  have h := C6_cursor_movement
  refine ⟨h.2.2.2.2.2.1 [0] 0 rfl, ?_⟩
  rw [h.1 (AnsiLogic.init 80 24) [3, 5]]
  decide

theorem getElem?_eraseFrom (st : AnsiLogic) (i : Nat) :
    (eraseDisplayFromCursor st)[i]? = (st.text_buffer[i]?).map
      (fun row =>
        if i = st.cursor.row then fillSeg st.current_attr st.cursor.col st.term_cols row
        else if st.cursor.row < i ∧ i < st.term_rows then
          fillSeg st.current_attr 0 st.term_cols row
        else row) := by
  unfold eraseDisplayFromCursor
  rw [getElem?_mapIdxFrom]
  simp

theorem getElem?_eraseTo (st : AnsiLogic) (i : Nat) :
    (eraseDisplayToCursor st)[i]? = (st.text_buffer[i]?).map
      (fun row =>
        if i < st.cursor.row then fillSeg st.current_attr 0 st.term_cols row
        else if i = st.cursor.row then fillSeg st.current_attr 0 (st.cursor.col + 1) row
        else row) := by
  unfold eraseDisplayToCursor
  rw [getElem?_mapIdxFrom]
  simp

theorem getD_fillSeg (attr : CharAttr) (a b : Nat) (row : List TermChar) (j : Nat)
    (d : TermChar) :
    (fillSeg attr a b row).getD j d =
      if j < row.length then
        (if a ≤ j ∧ j < b then blank attr else row.getD j d)
      else d := by
  rw [List.getD_eq_getElem?_getD, getElem?_fillSeg]
  by_cases hj : j < row.length
  · rw [List.getElem?_eq_getElem hj]
    rw [if_pos hj, List.getD_eq_getElem row d hj]
    rfl
  · rw [List.getElem?_eq_none (by omega), if_neg hj]
    rfl

theorem rowD_eq (B : List (List TermChar)) (r : Nat) :
    B.getD r [] = (B[r]?).getD [] :=
  List.getD_eq_getElem?_getD B r []

theorem exists_row (B : List (List TermChar)) (r : Nat) (hr : r < B.length) :
    ∃ row, B[r]? = some row ∧ row ∈ B := by
  cases hB : B[r]? with
  | none =>
    rw [List.getElem?_eq_none_iff] at hB
    omega
  | some row =>
    obtain ⟨hlt, rfl⟩ := List.getElem?_eq_some.1 hB
    exact ⟨_, rfl, List.getElem_mem hlt⟩

/-- C3: with the parser in Normal state and the cursor at `(r, c)`:
`ESC [0J` leaves the rows above `r` unchanged, fills row `r` from column
`c` to the last column and every row below `r` with blanks carrying the
current attribute, leaves the cursor unchanged, and returns dirty rows
exactly `r..rows-1`; `ESC [1J` fills rows `0..r-1` entirely and row `r` up
to and including column `c`, leaves the cursor unchanged, and returns
dirty rows exactly `0..r`; `ESC [2J` blanks the whole grid, resets the
cursor to `(0,0)`, and returns every row as dirty. -/
theorem C3_erase_display (st : AnsiLogic) (h : WF st) (hn : st.state = AnsiState.NORMAL) :
    ((processInput st [27, 91, 48, 74]).1.cursor = st.cursor ∧
      (processInput st [27, 91, 48, 74]).2 =
        List.range' st.cursor.row (st.term_rows - st.cursor.row) ∧
      (∀ i, i < st.cursor.row →
        (processInput st [27, 91, 48, 74]).1.text_buffer[i]? = st.text_buffer[i]?) ∧
      (∀ j, j < st.cursor.col →
        cellAt (processInput st [27, 91, 48, 74]).1 st.cursor.row j =
          cellAt st st.cursor.row j) ∧
      (∀ j, st.cursor.col ≤ j → j < st.term_cols →
        cellAt (processInput st [27, 91, 48, 74]).1 st.cursor.row j =
          blank st.current_attr) ∧
      (∀ i, st.cursor.row < i → i < st.term_rows → ∀ j, j < st.term_cols →
        cellAt (processInput st [27, 91, 48, 74]).1 i j = blank st.current_attr)) ∧
    ((processInput st [27, 91, 49, 74]).1.cursor = st.cursor ∧
      (processInput st [27, 91, 49, 74]).2 = List.range (st.cursor.row + 1) ∧
      (∀ i, i < st.cursor.row → ∀ j, j < st.term_cols →
        cellAt (processInput st [27, 91, 49, 74]).1 i j = blank st.current_attr) ∧
      (∀ j, j ≤ st.cursor.col →
        cellAt (processInput st [27, 91, 49, 74]).1 st.cursor.row j =
          blank st.current_attr) ∧
      (∀ j, st.cursor.col < j →
        cellAt (processInput st [27, 91, 49, 74]).1 st.cursor.row j =
          cellAt st st.cursor.row j) ∧
      (∀ i, st.cursor.row < i →
        (processInput st [27, 91, 49, 74]).1.text_buffer[i]? = st.text_buffer[i]?)) ∧
    ((processInput st [27, 91, 50, 74]).1.cursor = ⟨0, 0⟩ ∧
      (processInput st [27, 91, 50, 74]).2 = List.range st.term_rows ∧
      (∀ i, i < st.term_rows → ∀ j, j < st.term_cols →
        cellAt (processInput st [27, 91, 50, 74]).1 i j = blank st.current_attr)) := by
  obtain ⟨hc, hr, hlen, hrows, hcr, hcc⟩ := h
  obtain ⟨row0, hrow0, hmem0⟩ := exists_row st.text_buffer st.cursor.row (by omega)
  have hlen0 : row0.length = st.term_cols := hrows row0 hmem0
  have h0 : processInput st [27, 91, 48, 74] =
      ({ st with
          text_buffer := eraseDisplayFromCursor st
          state := .NORMAL
          ansi_seq := [] },
        List.range' st.cursor.row (st.term_rows - st.cursor.row)) := by
    simp only [processInput]
    rw [show ([27, 91, 48, 74] : List Nat) = 27 :: 91 :: ([48] ++ [74]) from rfl,
      processBytes_csi_seq st hn [48] 74 (by decide) (by decide)]
    rw [show (parseAnsiSequence (91 :: ([48] ++ [74]))
        { st with state := .CSI, ansi_seq := 91 :: ([48] ++ [74]) }) =
      ({ st with
          text_buffer := eraseDisplayFromCursor st
          state := .CSI
          ansi_seq := 91 :: ([48] ++ [74]) },
        List.range' st.cursor.row (st.term_rows - st.cursor.row)) from rfl]
    rw [sortDedup_of_sorted _ (List.pairwise_lt_range' _ _)]
  have h1 : processInput st [27, 91, 49, 74] =
      ({ st with
          text_buffer := eraseDisplayToCursor st
          state := .NORMAL
          ansi_seq := [] },
        List.range (st.cursor.row + 1)) := by
    simp only [processInput]
    rw [show ([27, 91, 49, 74] : List Nat) = 27 :: 91 :: ([49] ++ [74]) from rfl,
      processBytes_csi_seq st hn [49] 74 (by decide) (by decide)]
    rw [show (parseAnsiSequence (91 :: ([49] ++ [74]))
        { st with state := .CSI, ansi_seq := 91 :: ([49] ++ [74]) }) =
      ({ st with
          text_buffer := eraseDisplayToCursor st
          state := .CSI
          ansi_seq := 91 :: ([49] ++ [74]) },
        List.range (st.cursor.row + 1)) from rfl]
    rw [sortDedup_of_sorted _ (List.pairwise_lt_range _)]
  have h2 : processInput st [27, 91, 50, 74] =
      ({ st with
          text_buffer :=
            List.replicate st.term_rows (List.replicate st.term_cols (blank st.current_attr))
          cursor := ⟨0, 0⟩
          state := .NORMAL
          ansi_seq := [] },
        List.range st.term_rows) := by
    simp only [processInput]
    rw [show ([27, 91, 50, 74] : List Nat) = 27 :: 91 :: ([50] ++ [74]) from rfl,
      processBytes_csi_seq st hn [50] 74 (by decide) (by decide)]
    rw [show (parseAnsiSequence (91 :: ([50] ++ [74]))
        { st with state := .CSI, ansi_seq := 91 :: ([50] ++ [74]) }) =
      ({ st with
          text_buffer :=
            List.replicate st.term_rows (List.replicate st.term_cols (blank st.current_attr))
          cursor := ⟨0, 0⟩
          state := .CSI
          ansi_seq := 91 :: ([50] ++ [74]) },
        List.range st.term_rows) from rfl]
    rw [sortDedup_of_sorted _ (List.pairwise_lt_range _)]
  refine ⟨⟨by rw [h0], by rw [h0], ?_, ?_, ?_, ?_⟩,
    ⟨by rw [h1], by rw [h1], ?_, ?_, ?_, ?_⟩, ⟨by rw [h2], by rw [h2], ?_⟩⟩
  · -- 0J: rows above unchanged
    intro i hi
    rw [h0]
    show (eraseDisplayFromCursor st)[i]? = st.text_buffer[i]?
    rw [getElem?_eraseFrom]
    have e1 : ¬i = st.cursor.row := by omega
    have e2 : ¬(st.cursor.row < i ∧ i < st.term_rows) := by omega
    simp [e1, e2]
  · -- 0J: row r left of the cursor unchanged
    intro j hj
    rw [h0]
    show ((eraseDisplayFromCursor st).getD st.cursor.row []).getD j (blank {}) =
      cellAt st st.cursor.row j
    rw [rowD_eq, getElem?_eraseFrom, hrow0]
    simp only [Option.map_some', Option.getD_some]
    simp only [eq_self_iff_true, if_true]
    rw [getD_fillSeg, if_pos (by omega), if_neg (by omega)]
    unfold cellAt
    rw [rowD_eq, hrow0]
    rfl
  · -- 0J: row r from the cursor on blanked
    intro j hj1 hj2
    rw [h0]
    show ((eraseDisplayFromCursor st).getD st.cursor.row []).getD j (blank {}) =
      blank st.current_attr
    rw [rowD_eq, getElem?_eraseFrom, hrow0]
    simp only [Option.map_some', Option.getD_some]
    simp only [eq_self_iff_true, if_true]
    rw [getD_fillSeg, if_pos (by omega), if_pos ⟨hj1, hj2⟩]
  · -- 0J: rows below blanked
    intro i hi1 hi2 j hj
    obtain ⟨rowi, hrowi, hmemi⟩ := exists_row st.text_buffer i (by omega)
    have hleni : rowi.length = st.term_cols := hrows rowi hmemi
    rw [h0]
    show ((eraseDisplayFromCursor st).getD i []).getD j (blank {}) = blank st.current_attr
    rw [rowD_eq, getElem?_eraseFrom, hrowi]
    have e1 : ¬i = st.cursor.row := by omega
    simp only [Option.map_some', Option.getD_some]
    rw [if_neg e1, if_pos (⟨hi1, hi2⟩ : _ ∧ _)]
    rw [getD_fillSeg, if_pos (by omega), if_pos ⟨by omega, hj⟩]
  · -- 1J: rows above blanked
    intro i hi j hj
    obtain ⟨rowi, hrowi, hmemi⟩ := exists_row st.text_buffer i (by omega)
    have hleni : rowi.length = st.term_cols := hrows rowi hmemi
    rw [h1]
    show ((eraseDisplayToCursor st).getD i []).getD j (blank {}) = blank st.current_attr
    rw [rowD_eq, getElem?_eraseTo, hrowi]
    simp only [Option.map_some', Option.getD_some]
    rw [if_pos hi]
    rw [getD_fillSeg, if_pos (by omega), if_pos ⟨by omega, hj⟩]
  · -- 1J: row r up to the cursor blanked
    intro j hj
    rw [h1]
    show ((eraseDisplayToCursor st).getD st.cursor.row []).getD j (blank {}) =
      blank st.current_attr
    rw [rowD_eq, getElem?_eraseTo, hrow0]
    simp only [Option.map_some', Option.getD_some]
    simp only [lt_irrefl, if_false, eq_self_iff_true, if_true]
    rw [getD_fillSeg, if_pos (by omega), if_pos ⟨by omega, by omega⟩]
  · -- 1J: row r right of the cursor unchanged
    intro j hj
    rw [h1]
    show ((eraseDisplayToCursor st).getD st.cursor.row []).getD j (blank {}) =
      cellAt st st.cursor.row j
    rw [rowD_eq, getElem?_eraseTo, hrow0]
    simp only [Option.map_some', Option.getD_some]
    simp only [lt_irrefl, if_false, eq_self_iff_true, if_true]
    by_cases hjl : j < row0.length
    · rw [getD_fillSeg, if_pos hjl, if_neg (by omega)]
      unfold cellAt
      rw [rowD_eq, hrow0]
      rfl
    · rw [getD_fillSeg, if_neg hjl]
      unfold cellAt
      rw [rowD_eq, hrow0]
      simp only [Option.getD_some]
      rw [List.getD_eq_getElem?_getD, List.getElem?_eq_none (by omega)]
      rfl
  · -- 1J: rows below unchanged
    intro i hi
    rw [h1]
    show (eraseDisplayToCursor st)[i]? = st.text_buffer[i]?
    rw [getElem?_eraseTo]
    have e1 : ¬i < st.cursor.row := by omega
    have e2 : ¬i = st.cursor.row := by omega
    simp [e1, e2]
  · -- 2J: everything blanked
    intro i hi j hj
    rw [h2]
    show ((List.replicate st.term_rows
        (List.replicate st.term_cols (blank st.current_attr))).getD i []).getD j (blank {}) =
      blank st.current_attr
    rw [rowD_eq, List.getElem?_replicate, if_pos hi]
    simp only [Option.getD_some]
    rw [List.getD_eq_getElem?_getD, List.getElem?_replicate, if_pos hj]
    rfl

/-- Witness for C3 at a concrete instance. -/
theorem C3_erase_display_witness :
    (processInput (AnsiLogic.init 2 2) [27, 91, 50, 74]).1.cursor = ⟨0, 0⟩ ∧
      (processInput (AnsiLogic.init 2 2) [27, 91, 48, 74]).2 = List.range' 0 2 := by
  have h := C3_erase_display (AnsiLogic.init 2 2) (by decide) (by decide)
  exact ⟨h.2.2.1, h.1.2.1⟩

/-- C5: in state Normal, a byte that is not one of the handled control
bytes or ESC starts a UTF-8 sequence: a 1-4 byte sequence (per the
length-prefix rules) whose continuation bytes lie within the chunk is
decoded by the code's bit formula and written at the cursor with the
current attribute, the cursor advancing exactly one column with wrap to
column 0 of the next row and scroll when needed (in particular the byte
sequences for `a`, `Я`, `€`, `😀` each advance the cursor one column and
store the correct scalar); a lead byte whose declared length would read
past the end of the chunk, or that matches no prefix, skips exactly one
byte with no cell written and no cursor movement. -/
theorem C5_utf8_decode :
    (∀ (st : AnsiLogic) (b : Nat) (rest : List Nat), st.state = AnsiState.NORMAL →
      b &&& 0x80 = 0 → b ≠ 27 → b ≠ 10 → b ≠ 13 → b ≠ 8 → b ≠ 9 → b ≠ 7 →
      processBytes st (b :: rest) =
        ((processBytes (putChar st b).1 rest).1,
          (putChar st b).2 ++ (processBytes (putChar st b).1 rest).2)) ∧
    (∀ (st : AnsiLogic) (b c1 : Nat) (rest : List Nat), st.state = AnsiState.NORMAL →
      b &&& 0xE0 = 0xC0 →
      processBytes st (b :: c1 :: rest) =
        ((processBytes (putChar st (((b &&& 0x1F) <<< 6) ||| (c1 &&& 0x3F))).1 rest).1,
          (putChar st (((b &&& 0x1F) <<< 6) ||| (c1 &&& 0x3F))).2 ++
            (processBytes (putChar st (((b &&& 0x1F) <<< 6) ||| (c1 &&& 0x3F))).1 rest).2)) ∧
    (∀ (st : AnsiLogic) (b c1 c2 : Nat) (rest : List Nat), st.state = AnsiState.NORMAL →
      b &&& 0xF0 = 0xE0 →
      processBytes st (b :: c1 :: c2 :: rest) =
        ((processBytes (putChar st
            (((b &&& 0x0F) <<< 12) ||| ((c1 &&& 0x3F) <<< 6) ||| (c2 &&& 0x3F))).1 rest).1,
          (putChar st
            (((b &&& 0x0F) <<< 12) ||| ((c1 &&& 0x3F) <<< 6) ||| (c2 &&& 0x3F))).2 ++
            (processBytes (putChar st
              (((b &&& 0x0F) <<< 12) ||| ((c1 &&& 0x3F) <<< 6) ||| (c2 &&& 0x3F))).1 rest).2)) ∧
    (∀ (st : AnsiLogic) (b c1 c2 c3 : Nat) (rest : List Nat), st.state = AnsiState.NORMAL →
      b &&& 0xF8 = 0xF0 →
      processBytes st (b :: c1 :: c2 :: c3 :: rest) =
        ((processBytes (putChar st
            (((b &&& 0x07) <<< 18) ||| ((c1 &&& 0x3F) <<< 12) |||
              ((c2 &&& 0x3F) <<< 6) ||| (c3 &&& 0x3F))).1 rest).1,
          (putChar st
            (((b &&& 0x07) <<< 18) ||| ((c1 &&& 0x3F) <<< 12) |||
              ((c2 &&& 0x3F) <<< 6) ||| (c3 &&& 0x3F))).2 ++
            (processBytes (putChar st
              (((b &&& 0x07) <<< 18) ||| ((c1 &&& 0x3F) <<< 12) |||
                ((c2 &&& 0x3F) <<< 6) ||| (c3 &&& 0x3F))).1 rest).2)) ∧
    (∀ (st : AnsiLogic) (ch : Nat), WF st →
      ((putChar st ch).1.cursor =
        (if st.cursor.col + 1 < st.term_cols then ⟨st.cursor.row, st.cursor.col + 1⟩
         else if st.cursor.row + 1 < st.term_rows then ⟨st.cursor.row + 1, 0⟩
         else ⟨st.term_rows - 1, 0⟩ : Cursor)) ∧
      (¬(st.term_cols ≤ st.cursor.col + 1 ∧ st.term_rows ≤ st.cursor.row + 1) →
        cellAt (putChar st ch).1 st.cursor.row st.cursor.col = ⟨ch, st.current_attr⟩)) ∧
    (∀ (st : AnsiLogic) (b : Nat) (rest : List Nat), st.state = AnsiState.NORMAL →
      b ≠ 27 → b ≠ 10 → b ≠ 13 → b ≠ 8 → b ≠ 9 → b ≠ 7 →
      ¬b &&& 0x80 = 0 → ¬b &&& 0xE0 = 0xC0 → ¬b &&& 0xF0 = 0xE0 → ¬b &&& 0xF8 = 0xF0 →
      processBytes st (b :: rest) = processBytes st rest) ∧
    (∀ (st : AnsiLogic) (b : Nat), st.state = AnsiState.NORMAL → b &&& 0xE0 = 0xC0 →
      processBytes st [b] = (st, [])) ∧
    (∀ (st : AnsiLogic) (b : Nat) (rest : List Nat), st.state = AnsiState.NORMAL →
      b &&& 0xF0 = 0xE0 → rest.length ≤ 1 →
      processBytes st (b :: rest) = processBytes st rest) ∧
    (∀ (st : AnsiLogic) (b : Nat) (rest : List Nat), st.state = AnsiState.NORMAL →
      b &&& 0xF8 = 0xF0 → rest.length ≤ 2 →
      processBytes st (b :: rest) = processBytes st rest) ∧
    ((processInput (AnsiLogic.init 80 24) [97]).1.cursor = ⟨0, 1⟩ ∧
      cellAt (processInput (AnsiLogic.init 80 24) [97]).1 0 0 = ⟨97, {}⟩) ∧
    ((processInput (AnsiLogic.init 80 24) [0xD0, 0xAF]).1.cursor = ⟨0, 1⟩ ∧
      cellAt (processInput (AnsiLogic.init 80 24) [0xD0, 0xAF]).1 0 0 = ⟨0x42F, {}⟩) ∧
    ((processInput (AnsiLogic.init 80 24) [0xE2, 0x82, 0xAC]).1.cursor = ⟨0, 1⟩ ∧
      cellAt (processInput (AnsiLogic.init 80 24) [0xE2, 0x82, 0xAC]).1 0 0 = ⟨0x20AC, {}⟩) ∧
    ((processInput (AnsiLogic.init 80 24) [0xF0, 0x9F, 0x98, 0x80]).1.cursor = ⟨0, 1⟩ ∧
      cellAt (processInput (AnsiLogic.init 80 24) [0xF0, 0x9F, 0x98, 0x80]).1 0 0 =
        ⟨0x1F600, {}⟩) := by
  refine ⟨?_, ?_, ?_, ?_, ?_, ?_, ?_, ?_, ?_,
    ⟨by decide, by decide⟩, ⟨by decide, by decide⟩, ⟨by decide, by decide⟩,
    ⟨by decide, by decide⟩⟩
  · intro st b rest hn hm h27 h10 h13 h8 h9 h7
    rw [processBytes_cons, step_norm_ascii st hn rest b hm h27 h10 h13 h8 h9 h7]
    simp
  · intro st b c1 rest hn hm
    rw [processBytes_cons, step_norm_two st hn b c1 rest hm]
    simp
  · intro st b c1 c2 rest hn hm
    rw [processBytes_cons, step_norm_three st hn b c1 c2 rest hm]
    simp
  · intro st b c1 c2 c3 rest hn hm
    rw [processBytes_cons, step_norm_four st hn b c1 c2 c3 rest hm]
    simp
  · intro st ch h
    obtain ⟨hc, hr, hlen, hrows, hcr, hcc⟩ := h
    constructor
    · simp only [putChar, if_pos (⟨hcc, hcr⟩ : _ ∧ _)]
      by_cases hw : st.term_cols ≤ st.cursor.col + 1
      · rw [if_pos (by simpa using hw)]
        by_cases hs : st.term_rows ≤ st.cursor.row + 1
        · rw [if_pos (by simpa using hs)]
          rw [if_neg (by omega), if_neg (by omega)]
          simp [scrollUp]
        · rw [if_neg (by simpa using hs)]
          rw [if_neg (by omega), if_pos (by omega)]
      · rw [if_neg (by simpa using hw)]
        rw [if_pos (by omega)]
    · intro hns
      have hbuf := putChar_buffer st ch hcc hcr hns
      unfold cellAt
      rw [hbuf]
      obtain ⟨row0, hrow0, hmem0⟩ := exists_row st.text_buffer st.cursor.row (by omega)
      have hrowlen : (st.text_buffer.getD st.cursor.row []).length = st.term_cols := by
        rw [rowD_eq, hrow0]
        exact hrows row0 hmem0
      exact getD_setCell_self st.text_buffer st.cursor.row st.cursor.col _ (by omega)
        (by rw [hrowlen]; exact hcc)
  · intro st b rest hn h27 h10 h13 h8 h9 h7 h80 hC0 hE0 hF0
    rw [processBytes_cons, step_norm_invalid st hn b rest h27 h10 h13 h8 h9 h7 h80 hC0 hE0 hF0]
    simp
  · intro st b hn hm
    rw [processBytes_cons, step_norm_two_trunc st hn b hm]
    simp [processBytes_nil]
  · intro st b rest hn hm hlen
    rw [processBytes_cons, step_norm_three_trunc st hn b rest hm hlen]
    simp
  · intro st b rest hn hm hlen
    rw [processBytes_cons, step_norm_four_trunc st hn b rest hm hlen]
    simp

/-- Witness for C5 at a concrete instance. -/
theorem C5_utf8_decode_witness :
    processBytes (AnsiLogic.init 2 2) [194, 169] =
      ((processBytes (putChar (AnsiLogic.init 2 2)
          (((194 &&& 0x1F) <<< 6) ||| (169 &&& 0x3F))).1 []).1,
        (putChar (AnsiLogic.init 2 2) (((194 &&& 0x1F) <<< 6) ||| (169 &&& 0x3F))).2 ++
          (processBytes (putChar (AnsiLogic.init 2 2)
            (((194 &&& 0x1F) <<< 6) ||| (169 &&& 0x3F))).1 []).2) ∧
      processBytes (AnsiLogic.init 2 2) [0x81] = processBytes (AnsiLogic.init 2 2) [] := by
  constructor
  · exact C5_utf8_decode.2.1 (AnsiLogic.init 2 2) 194 169 [] (by decide) (by decide)
  · exact C5_utf8_decode.2.2.2.2.2.1 (AnsiLogic.init 2 2) 0x81 [] (by decide) (by decide)
      (by decide) (by decide) (by decide) (by decide) (by decide) (by decide) (by decide)
      (by decide) (by decide)

/-! ### Split-stream resumption (C7) -/

theorem bt_short (p : List Nat) (h : p.length < 3) : badTail p = false := by
  match p with
  | [] => rfl
  | [_] => rfl
  | [_, _] => rfl
  | _ :: _ :: _ :: _ =>
    simp only [List.length_cons] at h
    omega

theorem bt_cons (c : Nat) (p : List Nat) (h : 3 ≤ p.length) :
    badTail (c :: p) = badTail p := by
  match p with
  | x :: y :: z :: t => simp [badTail]
  | [] => simp at h
  | [_] => simp at h
  | [_, _] => simp at h

theorem bt_tail (c : Nat) (p : List Nat) (h : badTail (c :: p) = false) :
    badTail p = false := by
  by_cases hl : 3 ≤ p.length
  · rw [← bt_cons c p hl]
    exact h
  · exact bt_short p (by omega)

theorem bt_drop (k : Nat) (p : List Nat) (h : badTail p = false) :
    badTail (p.drop k) = false := by
  induction k generalizing p with
  | zero => simpa using h
  | succ k ih =>
    match p with
    | [] => simpa using h
    | c :: p' =>
      rw [List.drop_succ_cons]
      exact ih p' (bt_tail c p' h)

theorem bt_three (b c d : Nat) :
    badTail [b, c, d] = ((b &&& 0xF8 == 0xF0) && c == 27 && d == 91) := by
  simp [badTail]

theorem putChar_state (st : AnsiLogic) (ch : Nat) :
    (putChar st ch).1.state = st.state := by
  simp only [putChar]
  repeat' split
  all_goals simp [scrollUp]

theorem nlStep_state (st : AnsiLogic) : (nlStep st).1.state = st.state := by
  simp only [nlStep]
  split <;> simp [scrollUp]

theorem single_not_csi (st : AnsiLogic) (hn : st.state = AnsiState.NORMAL) (x : Nat) :
    (processBytes st [x]).1.state ≠ AnsiState.CSI := by
  by_cases h27 : x = 27
  · subst h27
    rw [processBytes_cons, step_norm_esc st hn []]
    simp [processBytes_nil]
  by_cases h10 : x = 10
  · subst h10
    rw [processBytes_cons, step_norm_nl st hn []]
    simp [processBytes_nil, nlStep_state, hn]
  by_cases h13 : x = 13
  · subst h13
    rw [processBytes_cons, step_norm_cr st hn [] (by simp)]
    simp [processBytes_nil, hn]
  by_cases h8 : x = 8
  · subst h8
    rw [processBytes_cons, step_norm_bs st hn []]
    by_cases hcol : 0 < st.cursor.col
    · rw [if_pos hcol]
      simp [processBytes_nil, hn]
    · rw [if_neg hcol]
      simp [processBytes_nil, hn]
  by_cases h9 : x = 9
  · subst h9
    rw [processBytes_cons, step_norm_tab st hn []]
    simp [processBytes_nil, hn]
  by_cases h7 : x = 7
  · subst h7
    rw [processBytes_cons, step_norm_bell st hn []]
    simp [processBytes_nil, hn]
  by_cases h80 : x &&& 0x80 = 0
  · rw [processBytes_cons, step_norm_ascii st hn [] x h80 h27 h10 h13 h8 h9 h7]
    simp [processBytes_nil, putChar_state, hn]
  by_cases hC0 : x &&& 0xE0 = 0xC0
  · rw [processBytes_cons, step_norm_two_trunc st hn x hC0]
    simp [processBytes_nil, hn]
  by_cases hE0 : x &&& 0xF0 = 0xE0
  · rw [processBytes_cons, step_norm_three_trunc st hn x [] hE0 (by simp)]
    simp [processBytes_nil, hn]
  by_cases hF0 : x &&& 0xF8 = 0xF0
  · rw [processBytes_cons, step_norm_four_trunc st hn x [] hF0 (by simp)]
    simp [processBytes_nil, hn]
  · rw [processBytes_cons, step_norm_invalid st hn x [] h27 h10 h13 h8 h9 h7 h80 hC0 hE0 hF0]
    simp [processBytes_nil, hn]

theorem two_byte_csi (st : AnsiLogic) (hn : st.state = AnsiState.NORMAL) (x y : Nat)
    (h : (processBytes st [x, y]).1.state = AnsiState.CSI) : x = 27 ∧ y = 91 := by
  by_cases h27 : x = 27
  · subst h27
    refine ⟨rfl, ?_⟩
    rw [processBytes_cons, step_norm_esc st hn [y]] at h
    simp only [List.drop_zero] at h
    rw [processBytes_cons,
      step_escape { st with state := .ESCAPE, ansi_seq := [] } rfl y []] at h
    by_cases h91 : y = 91
    · exact h91
    rw [if_neg h91] at h
    by_cases h99 : y = 99
    · rw [if_pos h99] at h
      simp [processBytes_nil] at h
    · rw [if_neg h99] at h
      simp [processBytes_nil] at h
  · exfalso
    by_cases h10 : x = 10
    · subst h10
      rw [processBytes_cons, step_norm_nl st hn [y]] at h
      simp only [List.drop_zero] at h
      exact single_not_csi (nlStep st).1 (by rw [nlStep_state]; exact hn) y h
    by_cases h13 : x = 13
    · subst h13
      by_cases hy10 : y = 10
      · subst hy10
        rw [processBytes_cons, step_norm_crnl st hn []] at h
        simp only [List.drop_succ_cons, List.drop_zero, processBytes_nil] at h
        rw [nlStep_state st, hn] at h
        simp at h
      · rw [processBytes_cons, step_norm_cr st hn [y] (by simpa using hy10)] at h
        simp only [List.drop_zero] at h
        exact single_not_csi _ (by simpa using hn) y h
    by_cases h8 : x = 8
    · subst h8
      rw [processBytes_cons, step_norm_bs st hn [y]] at h
      by_cases hcol : 0 < st.cursor.col
      · rw [if_pos hcol] at h
        simp only [List.drop_zero] at h
        exact single_not_csi _ (by simpa using hn) y h
      · rw [if_neg hcol] at h
        simp only [List.drop_zero] at h
        exact single_not_csi _ (by simpa using hn) y h
    by_cases h9 : x = 9
    · subst h9
      rw [processBytes_cons, step_norm_tab st hn [y]] at h
      simp only [List.drop_zero] at h
      exact single_not_csi _ (by simpa using hn) y h
    by_cases h7 : x = 7
    · subst h7
      rw [processBytes_cons, step_norm_bell st hn [y]] at h
      simp only [List.drop_zero] at h
      exact single_not_csi _ (by simpa using hn) y h
    by_cases h80 : x &&& 0x80 = 0
    · rw [processBytes_cons, step_norm_ascii st hn [y] x h80 h27 h10 h13 h8 h9 h7] at h
      simp only [List.drop_zero] at h
      exact single_not_csi _ (by rw [putChar_state]; exact hn) y h
    by_cases hC0 : x &&& 0xE0 = 0xC0
    · rw [processBytes_cons, step_norm_two st hn x y [] hC0] at h
      simp only [List.drop_succ_cons, List.drop_zero, processBytes_nil] at h
      rw [putChar_state, hn] at h
      simp at h
    by_cases hE0 : x &&& 0xF0 = 0xE0
    · rw [processBytes_cons, step_norm_three_trunc st hn x [y] hE0 (by simp)] at h
      simp only [List.drop_zero] at h
      exact single_not_csi st hn y h
    by_cases hF0 : x &&& 0xF8 = 0xF0
    · rw [processBytes_cons, step_norm_four_trunc st hn x [y] hF0 (by simp)] at h
      simp only [List.drop_zero] at h
      exact single_not_csi st hn y h
    · rw [processBytes_cons,
        step_norm_invalid st hn x [y] h27 h10 h13 h8 h9 h7 h80 hC0 hE0 hF0] at h
      simp only [List.drop_zero] at h
      exact single_not_csi st hn y h

theorem c7_step_compose (st : AnsiLogic) (c : Nat) (p' q : List Nat) (n : Nat)
    (ih : ∀ (p : List Nat) (st : AnsiLogic) (q : List Nat), p.length ≤ n →
      (processBytes st p).1.state = AnsiState.CSI → badTail p = false →
      (processBytes st (p ++ q)).1 = (processBytes (processBytes st p).1 q).1)
    (hstep : step st c (p' ++ q) = step st c p')
    (hk : (step st c p').2 ≤ p'.length)
    (hlen : p'.length ≤ n)
    (hcsi : (processBytes st (c :: p')).1.state = AnsiState.CSI)
    (hbt : badTail (c :: p') = false) :
    (processBytes st ((c :: p') ++ q)).1 =
      (processBytes (processBytes st (c :: p')).1 q).1 := by
  have e1 : (processBytes st ((c :: p') ++ q)).1 =
      (processBytes (step st c p').1.1 (p'.drop (step st c p').2 ++ q)).1 := by
    rw [List.cons_append, processBytes_cons, hstep, List.drop_append_of_le_length hk]
  have e2 : (processBytes st (c :: p')).1 =
      (processBytes (step st c p').1.1 (p'.drop (step st c p').2)).1 := by
    rw [processBytes_cons]
  rw [e1, e2]
  exact ih (p'.drop (step st c p').2) (step st c p').1.1 q
    (by rw [List.length_drop]; omega)
    (by rw [← e2]; exact hcsi)
    (bt_drop _ _ (bt_tail c p' hbt))

theorem c7_aux : ∀ (n : Nat) (p : List Nat) (st : AnsiLogic) (q : List Nat), p.length ≤ n →
    (processBytes st p).1.state = AnsiState.CSI → badTail p = false →
    (processBytes st (p ++ q)).1 = (processBytes (processBytes st p).1 q).1 := by
  intro n
  induction n with
  | zero =>
    intro p st q hlen _ _
    have : p = [] := List.length_eq_zero.1 (by omega)
    subst this
    simp [processBytes_nil]
  | succ n ih =>
    intro p st q hlen hcsi hbt
    match p with
    | [] => simp [processBytes_nil]
    | c :: p' =>
      have hlen' : p'.length ≤ n := by
        simp only [List.length_cons] at hlen
        omega
      rcases hst : st.state with _ | _ | _
      · -- NORMAL state
        by_cases h27 : c = 27
        · subst h27
          exact c7_step_compose st 27 p' q n ih
            ((step_norm_esc st hst (p' ++ q)).trans (step_norm_esc st hst p').symm)
            (by rw [step_norm_esc st hst p']; simp) hlen' hcsi hbt
        by_cases h10 : c = 10
        · subst h10
          exact c7_step_compose st 10 p' q n ih
            ((step_norm_nl st hst (p' ++ q)).trans (step_norm_nl st hst p').symm)
            (by rw [step_norm_nl st hst p']; simp) hlen' hcsi hbt
        by_cases h13 : c = 13
        · subst h13
          rcases p' with _ | ⟨d, p''⟩
          · exfalso
            rw [processBytes_cons, step_norm_cr st hst [] (by simp)] at hcsi
            simp only [List.drop_zero, processBytes_nil] at hcsi
            simp [hst] at hcsi
          · by_cases hd : d = 10
            · subst hd
              refine c7_step_compose st 13 (10 :: p'') q n ih ?_ ?_ hlen' hcsi hbt
              · rw [List.cons_append, step_norm_crnl st hst (p'' ++ q),
                  step_norm_crnl st hst p'']
              · rw [step_norm_crnl st hst p'']
                simp
            · refine c7_step_compose st 13 (d :: p'') q n ih ?_ ?_ hlen' hcsi hbt
              · rw [List.cons_append, step_norm_cr st hst (d :: (p'' ++ q)) (by simp [hd]),
                  step_norm_cr st hst (d :: p'') (by simp [hd])]
              · rw [step_norm_cr st hst (d :: p'') (by simp [hd])]
                simp
        by_cases h8 : c = 8
        · subst h8
          exact c7_step_compose st 8 p' q n ih
            ((step_norm_bs st hst (p' ++ q)).trans (step_norm_bs st hst p').symm)
            (by rw [step_norm_bs st hst p']; simp) hlen' hcsi hbt
        by_cases h9 : c = 9
        · subst h9
          exact c7_step_compose st 9 p' q n ih
            ((step_norm_tab st hst (p' ++ q)).trans (step_norm_tab st hst p').symm)
            (by rw [step_norm_tab st hst p']; simp) hlen' hcsi hbt
        by_cases h7 : c = 7
        · subst h7
          exact c7_step_compose st 7 p' q n ih
            ((step_norm_bell st hst (p' ++ q)).trans (step_norm_bell st hst p').symm)
            (by rw [step_norm_bell st hst p']; simp) hlen' hcsi hbt
        by_cases h80 : c &&& 0x80 = 0
        · exact c7_step_compose st c p' q n ih
            ((step_norm_ascii st hst (p' ++ q) c h80 h27 h10 h13 h8 h9 h7).trans
              (step_norm_ascii st hst p' c h80 h27 h10 h13 h8 h9 h7).symm)
            (by rw [step_norm_ascii st hst p' c h80 h27 h10 h13 h8 h9 h7]; simp) hlen' hcsi hbt
        by_cases hC0 : c &&& 0xE0 = 0xC0
        · rcases p' with _ | ⟨c1, p''⟩
          · exfalso
            rw [processBytes_cons, step_norm_two_trunc st hst c hC0] at hcsi
            simp only [List.drop_zero, processBytes_nil] at hcsi
            simp [hst] at hcsi
          · refine c7_step_compose st c (c1 :: p'') q n ih ?_ ?_ hlen' hcsi hbt
            · rw [List.cons_append, step_norm_two st hst c c1 (p'' ++ q) hC0,
                step_norm_two st hst c c1 p'' hC0]
            · rw [step_norm_two st hst c c1 p'' hC0]
              simp
        by_cases hE0 : c &&& 0xF0 = 0xE0
        · rcases p' with _ | ⟨c1, p''⟩
          · exfalso
            rw [processBytes_cons, step_norm_three_trunc st hst c [] hE0 (by simp)] at hcsi
            simp only [List.drop_zero, processBytes_nil] at hcsi
            simp [hst] at hcsi
          · rcases p'' with _ | ⟨c2, p3⟩
            · exfalso
              rw [processBytes_cons, step_norm_three_trunc st hst c [c1] hE0 (by simp)] at hcsi
              simp only [List.drop_zero] at hcsi
              exact single_not_csi st hst c1 hcsi
            · refine c7_step_compose st c (c1 :: c2 :: p3) q n ih ?_ ?_ hlen' hcsi hbt
              · rw [List.cons_append, List.cons_append,
                  step_norm_three st hst c c1 c2 (p3 ++ q) hE0,
                  step_norm_three st hst c c1 c2 p3 hE0]
              · rw [step_norm_three st hst c c1 c2 p3 hE0]
                simp
        by_cases hF0 : c &&& 0xF8 = 0xF0
        · rcases p' with _ | ⟨c1, p''⟩
          · exfalso
            rw [processBytes_cons, step_norm_four_trunc st hst c [] hF0 (by simp)] at hcsi
            simp only [List.drop_zero, processBytes_nil] at hcsi
            simp [hst] at hcsi
          · rcases p'' with _ | ⟨c2, p3⟩
            · exfalso
              rw [processBytes_cons, step_norm_four_trunc st hst c [c1] hF0 (by simp)] at hcsi
              simp only [List.drop_zero] at hcsi
              exact single_not_csi st hst c1 hcsi
            · rcases p3 with _ | ⟨c3, p4⟩
              · exfalso
                rw [processBytes_cons,
                  step_norm_four_trunc st hst c [c1, c2] hF0 (by simp)] at hcsi
                simp only [List.drop_zero] at hcsi
                obtain ⟨rfl, rfl⟩ := two_byte_csi st hst c1 c2 hcsi
                rw [bt_three] at hbt
                simp [hF0] at hbt
              · refine c7_step_compose st c (c1 :: c2 :: c3 :: p4) q n ih ?_ ?_
                  hlen' hcsi hbt
                · rw [List.cons_append, List.cons_append, List.cons_append,
                    step_norm_four st hst c c1 c2 c3 (p4 ++ q) hF0,
                    step_norm_four st hst c c1 c2 c3 p4 hF0]
                · rw [step_norm_four st hst c c1 c2 c3 p4 hF0]
                  simp
        · exact c7_step_compose st c p' q n ih
            ((step_norm_invalid st hst c (p' ++ q) h27 h10 h13 h8 h9 h7 h80 hC0 hE0 hF0).trans
              (step_norm_invalid st hst c p' h27 h10 h13 h8 h9 h7 h80 hC0 hE0 hF0).symm)
            (by rw [step_norm_invalid st hst c p' h27 h10 h13 h8 h9 h7 h80 hC0 hE0 hF0]; simp)
            hlen' hcsi hbt
      · -- ESCAPE state
        exact c7_step_compose st c p' q n ih
          ((step_escape st hst c (p' ++ q)).trans (step_escape st hst c p').symm)
          (by rw [step_escape st hst c p']; simp) hlen' hcsi hbt
      · -- CSI state
        exact c7_step_compose st c p' q n ih
          ((step_csi st hst c (p' ++ q)).trans (step_csi st hst c p').symm)
          (by rw [step_csi st hst c p']; simp) hlen' hcsi hbt

/-- C7 counterexample: with `p = [0xF0, ESC, '[']` and `q = "J"`, the call
`process_input(p)` ends with the parser in state CSI with accumulated
sequence `"["` (the truncated 4-byte lead 0xF0 is skipped), yet
`process_input(p ++ q)` does not reach the same final state as
`process_input(p)` followed by `process_input(q)`: the single call
consumes `ESC [ J` as continuation bytes of 0xF0 and writes a character,
so the claim as stated is false. -/
theorem C7_counterexample_split :
    (processInput (AnsiLogic.init 2 2) [240, 27, 91]).1.state = AnsiState.CSI ∧
      (processInput (AnsiLogic.init 2 2) [240, 27, 91]).1.ansi_seq = [91] ∧
      ¬(processInput (AnsiLogic.init 2 2) ([240, 27, 91] ++ [74])).1 =
        (processInput (processInput (AnsiLogic.init 2 2) [240, 27, 91]).1 [74]).1 :=
  ⟨by decide, by decide, by decide⟩

/-- C7 (amended): for every byte string `s = p ++ q` where `p` ends
strictly inside a CSI sequence (the parser is left in state CSI after
processing `p`, with the accumulated sequence carried in the returned
state), the call `process_input(q)` resumes: the final grid, cursor,
attribute and parser state equal those of the single call
`process_input(s)` — provided the last three bytes of `p` are not a
4-byte UTF-8 lead followed by `ESC [` (`badTail`), in which corner case
the single call consumes the `ESC [` as continuation bytes of the
truncated lead and diverges. -/
theorem C7_split_csi_resume (p : List Nat) (st : AnsiLogic) (q : List Nat)
    (hcsi : (processInput st p).1.state = AnsiState.CSI)
    (hbt : badTail p = false) :
    (processInput st (p ++ q)).1 = (processInput (processInput st p).1 q).1 :=
  c7_aux p.length p st q le_rfl hcsi hbt

/-- Witness for C7's amended theorem at a concrete instance. -/
theorem C7_split_csi_resume_witness :
    (processInput (AnsiLogic.init 2 2) ([27, 91, 48] ++ [74])).1 =
      (processInput (processInput (AnsiLogic.init 2 2) [27, 91, 48]).1 [74]).1 :=
  C7_split_csi_resume [27, 91, 48] (AnsiLogic.init 2 2) [74] (by decide) (by decide)
